import Mathlib

/-!
Verification development for a sample-synchronous DSP core consisting of
three source files: `noise.rs` (maximum length sequences and a linear
congruential white noise generator), `filter.rs` (biquad recurrence engine
and derived filters with lazily recomputed coefficients) and
`oscillator.rs` (a phase-accumulating sine oscillator).

The integer parts (`Mls`, the LCG state of `NoiseNode`) are embedded
exactly over `Nat`, with `u32`/`u64` wrap-around written as explicit
`% 2 ^ w` / masking, mirroring the source expressions.  The real-number
parts are embedded over an arbitrary `LinearOrderedField F` (the source is
generic over a `Real` numeric capability in the very same way); the
transcendental coefficient formulas (`tan`, `exp`, `cos`, `sqrt` from the
external numeric trait, and the external helpers `rnd`, `sin`, `delerp`,
`smooth9` from the missing `math.rs`) are passed in as explicit function
parameters, since every property below concerns the state-machine
structure (which arguments those pure functions receive and when they are
invoked), not their numeric values.
-/

/-! ### Bit-level helpers -/

/-- Fuel-bounded population count: `countOnesAux f x` counts the one bits
among the low `f` bits of `x`. -/
def countOnesAux : Nat → Nat → Nat
  | 0, _ => 0
  | fuel + 1, x => x % 2 + countOnesAux fuel (x / 2)

/-- `u32::count_ones`.  All arguments in this development are below
`2 ^ 32`, for which 32 units of fuel count every bit. -/
def countOnes (x : Nat) : Nat := countOnesAux 32 x

/-! ### `Mls` — maximum length sequence generator (`noise.rs`) -/

/-- The feedback table for MLS sequence generation (`static MLS_POLY`),
with the binary literals of the source written in decimal. -/
def MLS_POLY : List Nat := [1, 3, 6, 12, 20, 48, 72, 184, 272, 576, 1280, 3232, 6912, 12424, 24576, 53256, 73728, 132096, 405504, 589824, 1310720, 3145728, 4325376, 14745600, 18874368, 33554467, 67108883, 150994944, 335544320, 536870953, 1207959552]

/-- MLS state: state space size in bits `n` and current state `s`
(both `u32` in the source, embedded as `Nat`). -/
structure Mls where
  n : Nat
  s : Nat
deriving DecidableEq

/-- `Mls::length`: the sequence repeats after `2 ** n - 1` steps. -/
def Mls.length (m : Mls) : Nat := (1 <<< m.n) - 1

/-- The raw state transition of `Mls::next` at width `n`:
`feedback = MLS_POLY[n - 1] & s`, `parity = feedback.count_ones() & 1`,
`s' = ((s << 1) | parity) & ((1 << n) - 1)`. -/
def mlsStep (n s : Nat) : Nat :=
  ((s <<< 1) ||| (countOnes (MLS_POLY.getD (n - 1) 0 &&& s) &&& 1)) &&& ((1 <<< n) - 1)

/-- `Mls::next`: returns the next state in the sequence. -/
def Mls.next (m : Mls) : Mls := ⟨m.n, mlsStep m.n m.s⟩

/-- `Mls::value`: the current value in the sequence, either 0 or 1. -/
def Mls.value (m : Mls) : Nat := (m.s >>> (m.n - 1)) &&& 1

/-- `Mls::new`.  The source `assert!(n >= 1 && n <= 31)` aborts on a
precondition violation; the fallible embedding returns `none` exactly
when the assertion would fire. -/
def Mls.new? (n : Nat) : Option Mls :=
  if 1 ≤ n ∧ n ≤ 31 then some ⟨n, (1 <<< n) - 1⟩ else none

/-- `Mls::new_with_seed`, with the same assertion as `Mls::new`;
the constructed state is `1 + seed % ((1 << n) - 1)`. -/
def Mls.new_with_seed? (n seed : Nat) : Option Mls :=
  if 1 ≤ n ∧ n ≤ 31 then some ⟨n, 1 + seed % ((1 <<< n) - 1)⟩ else none

/-! ### GF(2) polynomial certificates for the MLS transition

The transition `mlsStep n` is GF(2)-linear on `n`-bit states (shifting,
masking and the tap parity all distribute over xor).  A packed `Nat`
doubles as a polynomial over GF(2), bit `i` being the coefficient of
`x ^ i`.  `polyApply f g v` evaluates the polynomial `g` at a linear map
`f` and applies the result to the vector `v`.  For each width `n` a
certificate records a monic degree-`n` polynomial `p` annihilating the
transition, together with Bezout inverses modulo `p` witnessing that `x`
is a unit (the transition is injective and never maps a nonzero state to
zero) and that `x ^ ((2 ^ n - 1) / q) - 1` is a unit for every prime `q`
dividing `2 ^ n - 1` (no nonzero state has period properly dividing
`2 ^ n - 1`), while `x ^ (2 ^ n - 1) - 1` reduces to zero (every state
has period dividing `2 ^ n - 1`). -/

/-- Carry-less product of packed GF(2) polynomials, recursing over the
low `fuel` bits of `a`. -/
def clmulF : Nat → Nat → Nat → Nat
  | 0, _, _ => 0
  | fuel + 1, a, b =>
    if a = 0 then 0
    else (if a % 2 = 1 then b else 0) ^^^ clmulF fuel (a / 2) (2 * b)

/-- Carry-less product; 32 units of fuel consume any `a < 2 ^ 32`. -/
def clmul (a b : Nat) : Nat := clmulF 32 a b

/-- Top-down polynomial reduction: for `i = fuel, ..., 1`, clear bit
`n + i - 1` of `v` by xoring in `p <<< (i - 1)` (`p` monic of degree `n`). -/
def reduceF (p n : Nat) : Nat → Nat → Nat
  | 0, v => v
  | i + 1, v => reduceF p n i (if v / 2 ^ (n + i) % 2 = 1 then v ^^^ (p <<< i) else v)

/-- Product in GF(2)[x] modulo the monic degree-`n` polynomial `p`. -/
def mulMod (p n a b : Nat) : Nat := reduceF p n 33 (clmul a b)

/-- Exponentiation by squaring in GF(2)[x] modulo `p`. -/
def powModF (p n : Nat) : Nat → Nat → Nat → Nat
  | 0, _, _ => 1
  | fuel + 1, b, e =>
    if e = 0 then 1
    else
      let r := powModF p n fuel (mulMod p n b b) (e / 2)
      if e % 2 = 1 then mulMod p n b r else r

/-- `b ^ e` in GF(2)[x] modulo `p`; 32 units of fuel consume any
exponent `e < 2 ^ 32`. -/
def powMod (p n b e : Nat) : Nat := powModF p n 32 b e

/-- Evaluate the packed GF(2) polynomial `g` at the map `f` and apply the
resulting map to `v`, in Horner form:
`g(f) v = g₀ · v  xor  f ((g / 2)(f) v)`. -/
def polyApplyF (f : Nat → Nat) : Nat → Nat → Nat → Nat
  | 0, _, _ => 0
  | fuel + 1, g, v =>
    if g = 0 then 0
    else (if g % 2 = 1 then v else 0) ^^^ f (polyApplyF f fuel (g / 2) v)

/-- `polyApplyF` with fuel 64, enough for every polynomial `g < 2 ^ 64`. -/
def polyApply (f : Nat → Nat) (g v : Nat) : Nat := polyApplyF f 64 g v

/-- Certificate data for one state-space width `n`: the annihilating
polynomial of the transition, the inverse of `x` modulo it, the distinct
prime factors of `2 ^ n - 1`, the full factorization with multiplicity,
and for each prime `q` the inverse of `x ^ ((2 ^ n - 1) / q) + 1`
modulo the annihilating polynomial. -/
structure LfsrData where
  poly : Nat
  xinv : Nat
  primes : List Nat
  factors : List Nat
  certs : List (Nat × Nat)

/-- Look up the Bezout certificate stored for the prime `q`. -/
def certLookup (cs : List (Nat × Nat)) (q : Nat) : Nat :=
  match cs.find? (fun c => c.1 == q) with
  | some c => c.2
  | none => 0

/-- The decidable certificate check for width `n` (see `LfsrData`). -/
def lfsrOk (n : Nat) (d : LfsrData) : Bool :=
  let N := 2 ^ n - 1
  let p := d.poly
  decide (2 ^ n ≤ p) && decide (p < 2 ^ n * 2) &&
  (List.range n).all (fun i => polyApply (mlsStep n) p (2 ^ i) == 0) &&
  decide (d.xinv < 2 ^ n) && (mulMod p n d.xinv 2 == 1) &&
  (powMod p n 2 N == 1) &&
  (d.factors.prod == N) &&
  d.factors.all (fun q => d.primes.contains q) &&
  d.primes.all (fun q =>
    let u := certLookup d.certs q
    decide (u < 2 ^ n) && (mulMod p n u (powMod p n 2 (N / q) ^^^ 1) == 1))

def lfsrData1 : LfsrData := ⟨3, 1, [], [], []⟩

def lfsrData2 : LfsrData := ⟨7, 3, [3], [3], [(3, 2)]⟩

def lfsrData3 : LfsrData := ⟨11, 5, [7], [7], [(7, 6)]⟩

def lfsrData4 : LfsrData := ⟨19, 9, [3, 5], [3, 5], [(3, 6), (5, 2)]⟩

def lfsrData5 : LfsrData := ⟨37, 18, [31], [31], [(31, 28)]⟩

def lfsrData6 : LfsrData := ⟨67, 33, [3, 7], [3, 3, 7], [(3, 59), (7, 15)]⟩

def lfsrData7 : LfsrData := ⟨137, 68, [127], [127], [(127, 120)]⟩

def lfsrData8 : LfsrData := ⟨285, 142, [3, 5, 17], [3, 5, 17], [(3, 214), (5, 152), (17, 138)]⟩

def lfsrData9 : LfsrData := ⟨529, 264, [7, 73], [7, 73], [(7, 28), (73, 488)]⟩

def lfsrData10 : LfsrData := ⟨1033, 516, [3, 11, 31], [3, 11, 31], [(3, 237), (11, 654), (31, 855)]⟩

def lfsrData11 : LfsrData := ⟨2053, 1026, [23, 89], [23, 89], [(23, 524), (89, 405)]⟩

def lfsrData12 : LfsrData := ⟨4179, 2089, [3, 5, 7, 13], [3, 3, 5, 7, 13], [(3, 70), (5, 1971), (7, 1799), (13, 1177)]⟩

def lfsrData13 : LfsrData := ⟨8219, 4109, [8191], [8191], [(8191, 8182)]⟩

def lfsrData14 : LfsrData := ⟨17475, 8737, [3, 43, 127], [3, 43, 127], [(3, 10151), (43, 12301), (127, 3409)]⟩

def lfsrData15 : LfsrData := ⟨32771, 16385, [7, 31, 151], [7, 31, 151], [(7, 5454), (31, 317), (151, 25749)]⟩

def lfsrData16 : LfsrData := ⟨69643, 34821, [3, 5, 17, 257], [3, 5, 17, 257], [(3, 350), (5, 26), (17, 6085), (257, 23989)]⟩

def lfsrData17 : LfsrData := ⟨131081, 65540, [131071], [131071], [(131071, 131064)]⟩

def lfsrData18 : LfsrData := ⟨262273, 131136, [3, 7, 19, 73], [3, 3, 3, 7, 19, 73], [(3, 114587), (7, 103563), (19, 191151), (73, 37678)]⟩

def lfsrData19 : LfsrData := ⟨524387, 262193, [524287], [524287], [(524287, 524254)]⟩

def lfsrData20 : LfsrData := ⟨1048585, 524292, [3, 5, 11, 31, 41], [3, 5, 5, 11, 31, 41], [(3, 810475), (5, 544808), (11, 97118), (31, 324094), (41, 21386)]⟩

def lfsrData21 : LfsrData := ⟨2097157, 1048578, [7, 127, 337], [7, 7, 127, 337], [(7, 640052), (127, 421748), (337, 2073285)]⟩

def lfsrData22 : LfsrData := ⟨4194307, 2097153, [3, 23, 89, 683], [3, 23, 89, 683], [(3, 2166039), (23, 1818062), (89, 398559), (683, 2680320)]⟩

def lfsrData23 : LfsrData := ⟨8388641, 4194320, [47, 178481], [47, 178481], [(47, 1643064), (178481, 1803671)]⟩

def lfsrData24 : LfsrData := ⟨16777351, 8388675, [3, 5, 7, 13, 17, 241], [3, 3, 5, 7, 13, 17, 241], [(3, 2692809), (5, 10624803), (7, 11721696), (13, 1065558), (17, 4290592), (241, 9370668)]⟩

def lfsrData25 : LfsrData := ⟨33554441, 16777220, [31, 601, 1801], [31, 601, 1801], [(31, 21551047), (601, 9501800), (1801, 31740228)]⟩

def lfsrData26 : LfsrData := ⟨118489089, 59244544, [3, 2731, 8191], [3, 2731, 8191], [(3, 22960722), (2731, 21058221), (8191, 49736167)]⟩

def lfsrData27 : LfsrData := ⟨239075329, 119537664, [7, 73, 262657], [7, 73, 262657], [(7, 60892125), (73, 18637814), (262657, 73030652)]⟩

def lfsrData28 : LfsrData := ⟨268435465, 134217732, [3, 5, 29, 43, 113, 127], [3, 5, 29, 43, 113, 127], [(3, 201413087), (5, 135300520), (29, 99118671), (43, 220580552), (113, 4290707), (127, 152044070)]⟩

def lfsrData29 : LfsrData := ⟨536870917, 268435458, [233, 1103, 2089], [233, 1103, 2089], [(233, 166316410), (1103, 185447446), (2089, 317348523)]⟩

def lfsrData30 : LfsrData := ⟨1694498817, 847249408, [3, 7, 11, 31, 151, 331], [3, 3, 7, 11, 31, 151, 331], [(3, 565571346), (7, 416592261), (11, 557259746), (31, 654693600), (151, 477138815), (331, 518058660)]⟩

def lfsrData31 : LfsrData := ⟨2147483657, 1073741828, [2147483647], [2147483647], [(2147483647, 2147483640)]⟩

/-- The maximal-period property of the MLS transition at width `n`:
from every nonzero `n`-bit state, the orbit avoids 0, returns after
exactly `2 ^ n - 1` steps, and has no repetition within one period. -/
def MlsGood (n : Nat) : Prop :=
  ∀ s, 0 < s → s < 2 ^ n →
    (∀ k, (mlsStep n)^[k] s ≠ 0) ∧
    (mlsStep n)^[2 ^ n - 1] s = s ∧
    ∀ i j, i < j → j < 2 ^ n - 1 → (mlsStep n)^[i] s ≠ (mlsStep n)^[j] s

/-! ### `filter.rs` — biquad engine and derived filters

The sample type `T` and computation type `F` of the source are identified
(`convert` between them is the identity); `F` is an arbitrary
`LinearOrderedField`.  The pure coefficient formulas
`BiquadCoefs::butter_lowpass`, `BiquadCoefs::resonator` and the one-pole
coefficient `exp(-TAU * cutoff / sample_rate)` are taken as explicit
function arguments, because they are built from the transcendental
operations of the external numeric trait. -/

/-- `BiquadCoefs`: five recurrence coefficients of a normalized
second-order transfer function. -/
structure BiquadCoefs (F : Type) where
  a1 : F
  a2 : F
  b0 : F
  b1 : F
  b2 : F

/-- `Biquad`: 2nd order IIR filter in normalized Direct Form I;
coefficients plus four delay registers. -/
structure Biquad (F : Type) where
  a1 : F
  a2 : F
  b0 : F
  b1 : F
  b2 : F
  x1 : F
  x2 : F
  y1 : F
  y2 : F

/-- `Biquad::new` (the `Default` instance: every field zero). -/
def Biquad.new {F : Type} [LinearOrderedField F] : Biquad F :=
  ⟨0, 0, 0, 0, 0, 0, 0, 0, 0⟩

/-- `Biquad::set_coefs`. -/
def Biquad.set_coefs {F : Type} [LinearOrderedField F] (b : Biquad F)
    (c : BiquadCoefs F) : Biquad F :=
  { b with a1 := c.a1, a2 := c.a2, b0 := c.b0, b1 := c.b1, b2 := c.b2 }

/-- The coefficient part of a `Biquad` state. -/
def Biquad.coefs {F : Type} (b : Biquad F) : BiquadCoefs F :=
  ⟨b.a1, b.a2, b.b0, b.b1, b.b2⟩

/-- `Biquad::reset`: zeroes the four delay registers, ignores the sample
rate and leaves the coefficients untouched. -/
def Biquad.reset {F : Type} [LinearOrderedField F] (b : Biquad F)
    (_sampleRate : Option F) : Biquad F :=
  { b with x1 := 0, x2 := 0, y1 := 0, y2 := 0 }

/-- `Biquad::tick`: one step of the Direct Form I recurrence. -/
def Biquad.tick {F : Type} [LinearOrderedField F] (b : Biquad F) (x0 : F) :
    Biquad F × F :=
  let y0 := b.b0 * x0 + b.b1 * b.x1 + b.b2 * b.x2 - b.a1 * b.y1 - b.a2 * b.y2
  ({ b with x2 := b.x1, x1 := x0, y2 := b.y1, y1 := y0 }, y0)

/-- `ButterLowpass`: a `Biquad` plus the bound sample rate and the cached
cutoff last used to compute coefficients. -/
structure ButterLowpass (F : Type) where
  biquad : Biquad F
  sample_rate : F
  cutoff : F

/-- `ButterLowpass::new`: fresh biquad, the given sample rate, cutoff 0. -/
def ButterLowpass.new {F : Type} [LinearOrderedField F] (sample_rate : F) :
    ButterLowpass F :=
  ⟨Biquad.new, sample_rate, 0⟩

/-- `ButterLowpass::reset`: resets the inner biquad and zeroes the cached
cutoff; the stored sample rate is not touched. -/
def ButterLowpass.reset {F : Type} [LinearOrderedField F]
    (b : ButterLowpass F) (sampleRate : Option F) : ButterLowpass F :=
  { b with biquad := b.biquad.reset sampleRate, cutoff := 0 }

/-- `ButterLowpass::tick` with inputs `(signal, cutoff)`; `butterCoefs`
stands for the pure function `BiquadCoefs::butter_lowpass`. -/
def ButterLowpass.tick {F : Type} [LinearOrderedField F]
    (butterCoefs : F → F → BiquadCoefs F) (b : ButterLowpass F)
    (input : F × F) : ButterLowpass F × F :=
  let cutoff := input.2
  let st :=
    if cutoff ≠ b.cutoff then
      { b with biquad := b.biquad.set_coefs (butterCoefs b.sample_rate cutoff),
               cutoff := cutoff }
    else b
  let r := st.biquad.tick input.1
  ({ st with biquad := r.1 }, r.2)

/-- `Resonator`: a `Biquad` plus sample rate and the cached center and
bandwidth control values. -/
structure Resonator (F : Type) where
  biquad : Biquad F
  sample_rate : F
  center : F
  bandwidth : F

/-- `Resonator::new`. -/
def Resonator.new {F : Type} [LinearOrderedField F] (sample_rate : F) :
    Resonator F :=
  ⟨Biquad.new, sample_rate, 0, 0⟩

/-- `Resonator::reset`: resets the biquad, rebinds the sample rate when
one is supplied, and zeroes both cached control values. -/
def Resonator.reset {F : Type} [LinearOrderedField F] (st : Resonator F)
    (sampleRate : Option F) : Resonator F :=
  match sampleRate with
  | some sr =>
      { st with biquad := st.biquad.reset (some sr), sample_rate := sr,
                center := 0, bandwidth := 0 }
  | none =>
      { st with biquad := st.biquad.reset none, center := 0, bandwidth := 0 }

/-- `Resonator::tick` with inputs `(signal, center, bandwidth)`;
`resCoefs` stands for the pure function `BiquadCoefs::resonator`. -/
def Resonator.tick {F : Type} [LinearOrderedField F]
    (resCoefs : F → F → F → BiquadCoefs F) (st : Resonator F)
    (input : F × F × F) : Resonator F × F :=
  let center := input.2.1
  let bandwidth := input.2.2
  let st1 :=
    if center ≠ st.center ∨ bandwidth ≠ st.bandwidth then
      { st with
          biquad := st.biquad.set_coefs (resCoefs st.sample_rate center bandwidth),
          center := center, bandwidth := bandwidth }
    else st
  let r := st1.biquad.tick input.1
  ({ st1 with biquad := r.1 }, r.2)

/-- `OnePoleLowpass`: one-pole recurrence state `value`, the derived
coefficient `coeff`, the cached cutoff and the bound sample rate. -/
structure OnePoleLowpass (F : Type) where
  value : F
  coeff : F
  cutoff : F
  sample_rate : F

/-- `OnePoleLowpass::new`. -/
def OnePoleLowpass.new {F : Type} [LinearOrderedField F] (sample_rate : F) :
    OnePoleLowpass F :=
  ⟨0, 0, 0, sample_rate⟩

/-- `OnePoleLowpass::reset`: zeroes `value`; when a sample rate is given,
rebinds it and zeroes the cached cutoff (forcing recomputation on the
next cutoff change) but leaves `coeff` itself untouched. -/
def OnePoleLowpass.reset {F : Type} [LinearOrderedField F]
    (st : OnePoleLowpass F) (sampleRate : Option F) : OnePoleLowpass F :=
  match sampleRate with
  | some sr => { st with sample_rate := sr, cutoff := 0, value := 0 }
  | none => { st with value := 0 }

/-- `OnePoleLowpass::tick` with inputs `(signal, cutoff)`; `opCoeff`
stands for the pure formula `exp(-TAU * cutoff / sample_rate)`. -/
def OnePoleLowpass.tick {F : Type} [LinearOrderedField F]
    (opCoeff : F → F → F) (st : OnePoleLowpass F) (input : F × F) :
    OnePoleLowpass F × F :=
  let cutoff := input.2
  let st1 :=
    if cutoff ≠ st.cutoff then
      { st with cutoff := cutoff, coeff := opCoeff st.sample_rate cutoff }
    else st
  let v := (1 - st1.coeff) * input.1 + st1.coeff * st1.value
  ({ st1 with value := v }, v)

/-- `Declicker`: elapsed time `t`, fade duration, and the per-sample time
increment. -/
structure Declicker (F : Type) where
  t : F
  duration : F
  sample_duration : F

/-- `Declicker::reset`: rebinds `sample_duration = 1 / sample_rate` when a
sample rate is given and restarts the fade clock. -/
def Declicker.reset {F : Type} [LinearOrderedField F] (d : Declicker F)
    (sampleRate : Option F) : Declicker F :=
  match sampleRate with
  | some sr => { d with sample_duration := 1 / sr, t := 0 }
  | none => { d with t := 0 }

/-- `Declicker::new`: default state, then the duration, then
`reset(Some(sample_rate))`. -/
def Declicker.new {F : Type} [LinearOrderedField F] (sample_rate : F)
    (duration : F) : Declicker F :=
  Declicker.reset ⟨0, duration, 0⟩ (some sample_rate)

/-- `Declicker::tick`: during the fade window multiply the input by the
fade curve and advance the clock, afterwards pass the input through.
`delerp` and `smooth9` stand for the helpers of the external `math.rs`. -/
def Declicker.tick {F : Type} [LinearOrderedField F]
    (delerp : F → F → F → F) (smooth9 : F → F) (d : Declicker F)
    (input : F) : Declicker F × F :=
  if d.t < d.duration then
    let phase := delerp 0 d.duration d.t
    let value := smooth9 phase
    ({ d with t := d.t + d.sample_duration }, input * value)
  else (d, input)

/-- Run a `ButterLowpass` over a list of `(signal, cutoff)` input frames,
collecting the outputs. -/
def butterRun {F : Type} [LinearOrderedField F]
    (butterCoefs : F → F → BiquadCoefs F) (st : ButterLowpass F) :
    List (F × F) → ButterLowpass F × List F
  | [] => (st, [])
  | i :: is =>
    let r := ButterLowpass.tick butterCoefs st i
    let rest := butterRun butterCoefs r.1 is
    (rest.1, r.2 :: rest.2)

/-- Run a `Declicker` over a list of input samples, collecting the
outputs. -/
def declickerRun {F : Type} [LinearOrderedField F]
    (delerp : F → F → F → F) (smooth9 : F → F) (d : Declicker F) :
    List F → Declicker F × List F
  | [] => (d, [])
  | i :: is =>
    let r := Declicker.tick delerp smooth9 d i
    let rest := declickerRun delerp smooth9 r.1 is
    (rest.1, r.2 :: rest.2)

/-- Run a `Biquad` over a list of input samples, collecting the outputs. -/
def biquadRun {F : Type} [LinearOrderedField F] (b : Biquad F) :
    List F → Biquad F × List F
  | [] => (b, [])
  | i :: is =>
    let r := b.tick i
    let rest := biquadRun r.1 is
    (rest.1, r.2 :: rest.2)

/-! ### `NoiseNode` — white noise via a 64-bit LCG (`noise.rs`)

The sample type is taken to be `ℚ`: the two conversions in the source
(`T::new` on a value below `2 ^ 20` and `T::from_f32(524287.5)`) are exact
in every floating format the source instantiates, so exact rational
arithmetic is the faithful reading of the sample expression. -/

/-- `NoiseNode`: LCG state `x` (`u64`) and the hash identifier (`u32`). -/
structure NoiseNode where
  x : Nat
  hash : Nat

/-- `NoiseNode::new`. -/
def NoiseNode.new : NoiseNode := ⟨0, 0⟩

/-- `AudioNode::set_hash` for `NoiseNode`. -/
def NoiseNode.set_hash (n : NoiseNode) (h : Nat) : NoiseNode :=
  { n with hash := h }

/-- `NoiseNode::reset`: reseeds the LCG state from the hash identifier
(the sample rate argument is ignored). -/
def NoiseNode.reset (n : NoiseNode) : NoiseNode := { n with x := n.hash }

/-- `NoiseNode::tick`: advance the LCG with wrapping `u64` arithmetic and
map the top 20 bits of the new state to a sample. -/
def NoiseNode.tick (n : NoiseNode) : NoiseNode × ℚ :=
  let x := (n.x * 6364136223846793005 + 1442695040888963407) % 2 ^ 64
  let value : ℚ := ((x >>> 44 : Nat) : ℚ) / (524287.5 : ℚ) - 1
  ({ n with x := x }, value)

/-- The state after `k` ticks of a `NoiseNode`. -/
def NoiseNode.run (n : NoiseNode) (k : Nat) : NoiseNode :=
  (fun st => (NoiseNode.tick st).1)^[k] n

/-! ### `SineComponent` — sine oscillator (`oscillator.rs`)

`rnd` (the fixed hash-to-initial-phase seeding function), `sin` and the
constants `TAU` and `DEFAULT_SR` live outside the three source files and
are passed as parameters. -/

/-- `SineComponent`: phase in cycles, per-sample phase duration and the
hash identifier. -/
structure SineComponent (F : Type) where
  phase : F
  sample_duration : F
  hash : Nat

/-- `SineComponent::new`: zero phase and `sample_duration = 1 / DEFAULT_SR`
(the external constant `DEFAULT_SR` is a parameter here). -/
def SineComponent.new {F : Type} [LinearOrderedField F] (default_sr : F) :
    SineComponent F :=
  ⟨0, 1 / default_sr, 0⟩

/-- `AudioNode::set_hash` for `SineComponent`. -/
def SineComponent.set_hash {F : Type} (s : SineComponent F) (h : Nat) :
    SineComponent F :=
  { s with hash := h }

/-- `SineComponent::reset`: derives the initial phase from the hash via
`rnd` and rebinds the sample duration when a sample rate is supplied. -/
def SineComponent.reset {F : Type} [LinearOrderedField F] (rnd : Nat → F)
    (s : SineComponent F) (sampleRate : Option F) : SineComponent F :=
  let s1 := { s with phase := rnd s.hash }
  match sampleRate with
  | some sr => { s1 with sample_duration := 1 / sr }
  | none => s1

/-- `SineComponent::tick`: `phase += frequency * sample_duration`, then
output `sin(phase * TAU)`. -/
def SineComponent.tick {F : Type} [LinearOrderedField F] (sinF : F → F)
    (tau : F) (s : SineComponent F) (frequency : F) : SineComponent F × F :=
  let phase := s.phase + frequency * s.sample_duration
  ({ s with phase := phase }, sinF (phase * tau))

/-- The oscillator state after `k` ticks at constant frequency `f`. -/
def sineTicks {F : Type} [LinearOrderedField F] (sinF : F → F) (tau f : F)
    (s : SineComponent F) (k : Nat) : SineComponent F :=
  (fun st => (SineComponent.tick sinF tau st f).1)^[k] s

/-- The output sample with zero-based index `k` (the output of the
`(k+1)`-st tick) at constant frequency `f`. -/
def sineSample {F : Type} [LinearOrderedField F] (sinF : F → F) (tau f : F)
    (s : SineComponent F) (k : Nat) : F :=
  (SineComponent.tick sinF tau (sineTicks sinF tau f s k) f).2

/-! ## Theorems

### Bit-level lemmas -/

theorem xor_mod_two (a b : Nat) : (a ^^^ b) % 2 = a % 2 ^^^ b % 2 := by
  have h : ((a ^^^ b) % 2 = 1) ↔ ¬ ((a % 2 = 1) ↔ (b % 2 = 1)) :=
    Nat.xor_mod_two_eq_one
  rcases Nat.mod_two_eq_zero_or_one a with ha | ha <;>
    rcases Nat.mod_two_eq_zero_or_one b with hb | hb <;>
    rcases Nat.mod_two_eq_zero_or_one (a ^^^ b) with hx | hx <;>
    rw [ha, hb, hx] <;> first | rfl | (exfalso; omega)

theorem two_pow_add_xor {k r : Nat} (h : r < 2 ^ k) : (2 ^ k + r) ^^^ 2 ^ k = r := by
  apply Nat.eq_of_testBit_eq
  intro i
  rw [Nat.testBit_xor]
  rcases Nat.lt_trichotomy i k with hik | hik | hik
  · have h1 : (2 ^ k + r).testBit i = r.testBit i := by
      have := Nat.testBit_mul_pow_two_add 1 h i
      simpa [hik] using this
    have h2 : (2 ^ k).testBit i = false := Nat.testBit_two_pow_of_ne (by omega)
    simp [h1, h2]
  · subst hik
    have h1 : (2 ^ i + r).testBit i = true := by
      have := Nat.testBit_mul_pow_two_add 1 h i
      simpa using this
    have h2 : (2 ^ i).testBit i = true := Nat.testBit_two_pow_self
    have h3 : r.testBit i = false := Nat.testBit_lt_two_pow h
    simp [h1, h2, h3]
  · have h1 : (2 ^ k + r).testBit i = false := by
      have hlt : 2 ^ k + r < 2 ^ i := by
        have : 2 ^ k + r < 2 ^ (k + 1) := by
          have := Nat.pow_succ 2 k
          omega
        exact Nat.lt_of_lt_of_le this (Nat.pow_le_pow_right (by omega) (by omega))
      exact Nat.testBit_lt_two_pow hlt
    have h2 : (2 ^ k).testBit i = false := Nat.testBit_two_pow_of_ne (by omega)
    have h3 : r.testBit i = false :=
      Nat.testBit_lt_two_pow (Nat.lt_of_lt_of_le h (Nat.pow_le_pow_right (by omega) (by omega)))
    simp [h1, h2, h3]

theorem two_pow_add_eq_xor {k r : Nat} (h : r < 2 ^ k) : 2 ^ k + r = 2 ^ k ^^^ r := by
  have h1 := two_pow_add_xor h
  have h2 := Nat.xor_cancel_right (2 ^ k) (2 ^ k + r)
  rw [h1] at h2
  rw [← h2, Nat.xor_comm]

theorem shiftLeft_one_xor (a b : Nat) : (a ^^^ b) <<< 1 = a <<< 1 ^^^ b <<< 1 := by
  apply Nat.eq_of_testBit_eq
  intro i
  simp [Nat.testBit_shiftLeft, Nat.testBit_xor, Bool.and_xor_distrib_left]

theorem two_mul_xor_one (s : Nat) : s <<< 1 ^^^ 1 = s <<< 1 + 1 := by
  rw [Nat.shiftLeft_eq, Nat.pow_one]
  apply Nat.eq_of_testBit_eq
  intro i
  rw [Nat.testBit_xor]
  cases i with
  | zero =>
    have h1 : (s * 2).testBit 0 = false := by
      rw [Nat.testBit_zero]
      simp [Nat.mul_mod_left]
    have h2 : (s * 2 + 1).testBit 0 = true := by
      rw [Nat.testBit_zero]
      simp only [decide_eq_true_eq]
      omega
    rw [h1, h2, Nat.testBit_one_zero]
    rfl
  | succ i =>
    rw [Nat.testBit_add_one, Nat.testBit_add_one, Nat.testBit_add_one]
    have hd : (s * 2 + 1) / 2 = s * 2 / 2 := by omega
    rw [hd]
    have h2 : (1 : Nat) / 2 = 0 := by omega
    rw [h2, Nat.zero_testBit, Bool.xor_false]

theorem lor_small_eq_xor (s e : Nat) (he : e < 2) : s <<< 1 ||| e = s <<< 1 ^^^ e := by
  interval_cases e
  · simp
  · have h1 : s <<< 1 ||| 1 = s <<< 1 + 1 := by
      have := Nat.mul_add_lt_is_or (b := 1) (i := 1) (by omega) s
      rw [Nat.shiftLeft_eq]
      simpa [Nat.mul_comm] using this.symm
    rw [h1, two_mul_xor_one]

theorem countOnesAux_zero (fuel : Nat) : countOnesAux fuel 0 = 0 := by
  induction fuel with
  | zero => rfl
  | succ fuel ih => simp [countOnesAux, ih]

theorem countOnesAux_xor_mod (fuel : Nat) :
    ∀ a b : Nat, countOnesAux fuel (a ^^^ b) % 2 =
      countOnesAux fuel a % 2 ^^^ countOnesAux fuel b % 2 := by
  induction fuel with
  | zero => intro a b; simp [countOnesAux]
  | succ fuel ih =>
    intro a b
    simp only [countOnesAux]
    rw [Nat.add_mod, Nat.add_mod (a % 2), Nat.add_mod (b % 2)]
    rw [xor_mod_two, Nat.xor_div_two, ih]
    have hpa : a % 2 % 2 = a % 2 := Nat.mod_mod_of_dvd a (by omega)
    have hpb : b % 2 % 2 = b % 2 := Nat.mod_mod_of_dvd b (by omega)
    rw [hpa, hpb]
    have h1 : a % 2 < 2 := Nat.mod_lt a (by omega)
    have h2 : b % 2 < 2 := Nat.mod_lt b (by omega)
    have h3 : countOnesAux fuel (a / 2) % 2 < 2 := Nat.mod_lt _ (by omega)
    have h4 : countOnesAux fuel (b / 2) % 2 < 2 := Nat.mod_lt _ (by omega)
    generalize a % 2 = pa at *
    generalize b % 2 = pb at *
    generalize countOnesAux fuel (a / 2) % 2 = qa at *
    generalize countOnesAux fuel (b / 2) % 2 = qb at *
    interval_cases pa <;> interval_cases pb <;> interval_cases qa <;> interval_cases qb <;> rfl

/-! ### Linearity and range of the MLS transition -/

theorem mlsStep_lt (n s : Nat) : mlsStep n s < 2 ^ n := by
  unfold mlsStep
  rw [Nat.one_shiftLeft, Nat.and_pow_two_sub_one_eq_mod]
  exact Nat.mod_lt _ (Nat.pos_pow_of_pos n (by omega))

theorem mlsStep_zero (n : Nat) : mlsStep n 0 = 0 := by
  unfold mlsStep
  simp [countOnesAux_zero, countOnes]

theorem mlsStep_xor (n a b : Nat) :
    mlsStep n (a ^^^ b) = mlsStep n a ^^^ mlsStep n b := by
  unfold mlsStep
  have hpar : ∀ x : Nat, countOnes x &&& 1 = countOnesAux 32 x % 2 := fun x => by
    rw [countOnes, Nat.and_one_is_mod]
  set t := MLS_POLY.getD (n - 1) 0 with ht
  have hdist : t &&& (a ^^^ b) = (t &&& a) ^^^ (t &&& b) := Nat.and_xor_distrib_left
  rw [hdist, hpar, hpar, hpar, countOnesAux_xor_mod]
  have hea : countOnesAux 32 (t &&& a) % 2 < 2 := Nat.mod_lt _ (by omega)
  have heb : countOnesAux 32 (t &&& b) % 2 < 2 := Nat.mod_lt _ (by omega)
  generalize countOnesAux 32 (t &&& a) % 2 = ea at *
  generalize countOnesAux 32 (t &&& b) % 2 = eb at *
  rw [lor_small_eq_xor _ _ (Nat.xor_lt_two_pow (n := 1) hea heb),
    lor_small_eq_xor _ _ hea, lor_small_eq_xor _ _ heb,
    shiftLeft_one_xor, ← Nat.and_xor_distrib_right]
  congr 1
  rw [Nat.xor_assoc, Nat.xor_assoc]
  congr 1
  rw [← Nat.xor_assoc, ← Nat.xor_assoc]
  congr 1
  exact Nat.xor_comm _ _

/-! ### Evaluating packed polynomials at a linear map -/

theorem xor_left_comm (a b c : Nat) : a ^^^ (b ^^^ c) = b ^^^ (a ^^^ c) := by
  rw [← Nat.xor_assoc, Nat.xor_comm a b, Nat.xor_assoc]

theorem xor_xor_comm (x y z w : Nat) : (x ^^^ y) ^^^ (z ^^^ w) = (x ^^^ z) ^^^ (y ^^^ w) := by
  rw [Nat.xor_assoc, Nat.xor_assoc]
  congr 1
  rw [xor_left_comm]

theorem polyApplyF_zero_g (f : Nat → Nat) (fuel v : Nat) :
    polyApplyF f fuel 0 v = 0 := by
  cases fuel <;> simp [polyApplyF]

theorem polyApplyF_congr (f : Nat → Nat) :
    ∀ fuel₁ fuel₂ g v, g < 2 ^ fuel₁ → g < 2 ^ fuel₂ →
      polyApplyF f fuel₁ g v = polyApplyF f fuel₂ g v := by
  intro fuel₁
  induction fuel₁ with
  | zero =>
    intro fuel₂ g v h1 _
    rw [Nat.pow_zero] at h1
    have hg : g = 0 := by omega
    subst hg
    rw [polyApplyF_zero_g, polyApplyF_zero_g]
  | succ fuel ih =>
    intro fuel₂ g v h1 h2
    by_cases hg : g = 0
    · subst hg
      rw [polyApplyF_zero_g, polyApplyF_zero_g]
    · cases fuel₂ with
      | zero =>
        rw [Nat.pow_zero] at h2
        omega
      | succ fuel₂ =>
        simp only [polyApplyF, if_neg hg]
        have hd1 : g / 2 < 2 ^ fuel := by
          rw [Nat.pow_succ] at h1
          omega
        have hd2 : g / 2 < 2 ^ fuel₂ := by
          rw [Nat.pow_succ] at h2
          omega
        rw [ih fuel₂ (g / 2) v hd1 hd2]

theorem polyApplyF_v0 (f : Nat → Nat) (hf0 : f 0 = 0) :
    ∀ fuel g, polyApplyF f fuel g 0 = 0 := by
  intro fuel
  induction fuel with
  | zero => intro g; rfl
  | succ fuel ih =>
    intro g
    by_cases hg : g = 0
    · simp [polyApplyF, hg]
    · simp only [polyApplyF, if_neg hg]
      rw [ih, hf0, Nat.xor_zero, ite_self]

theorem polyApplyF_xor_v (f : Nat → Nat) (hfx : ∀ a b, f (a ^^^ b) = f a ^^^ f b) :
    ∀ fuel g a b, polyApplyF f fuel g (a ^^^ b) =
      polyApplyF f fuel g a ^^^ polyApplyF f fuel g b := by
  intro fuel
  induction fuel with
  | zero => intro g a b; simp [polyApplyF]
  | succ fuel ih =>
    intro g a b
    by_cases hg : g = 0
    · simp [polyApplyF, hg]
    · simp only [polyApplyF, if_neg hg]
      rw [ih, hfx]
      by_cases hm : g % 2 = 1 <;> simp only [hm, if_true, if_false, reduceIte] <;>
        first
        | (simp only [Nat.zero_xor])
        | (rw [xor_xor_comm])

theorem polyApplyF_lt (f : Nat → Nat) (n : Nat) (hfb : ∀ u, f u < 2 ^ n) :
    ∀ fuel g v, v < 2 ^ n → polyApplyF f fuel g v < 2 ^ n := by
  have hpos : 0 < 2 ^ n := Nat.pos_pow_of_pos n (by omega)
  intro fuel
  induction fuel with
  | zero => intro g v _; simpa [polyApplyF] using hpos
  | succ fuel ih =>
    intro g v hv
    by_cases hg : g = 0
    · simpa [polyApplyF, hg] using hpos
    · simp only [polyApplyF, if_neg hg]
      apply Nat.xor_lt_two_pow
      · by_cases hm : g % 2 = 1 <;> simp [hm, hv, hpos]
      · exact hfb _

theorem polyApplyF_comm (f : Nat → Nat) (hf0 : f 0 = 0)
    (hfx : ∀ a b, f (a ^^^ b) = f a ^^^ f b) :
    ∀ fuel g v, f (polyApplyF f fuel g v) = polyApplyF f fuel g (f v) := by
  intro fuel
  induction fuel with
  | zero => intro g v; simp [polyApplyF, hf0]
  | succ fuel ih =>
    intro g v
    by_cases hg : g = 0
    · simp [polyApplyF, hg, hf0]
    · simp only [polyApplyF, if_neg hg]
      have hsplit : f ((if g % 2 = 1 then v else 0) ^^^ f (polyApplyF f fuel (g / 2) v)) =
          f (if g % 2 = 1 then v else 0) ^^^ f (f (polyApplyF f fuel (g / 2) v)) := hfx _ _
      rw [hsplit, ih]
      congr 1
      by_cases hm : g % 2 = 1 <;> simp [hm, hf0]

theorem polyApplyF_xor_g (f : Nat → Nat) (hfx : ∀ a b, f (a ^^^ b) = f a ^^^ f b) :
    ∀ fuel g₁ g₂ v, g₁ < 2 ^ fuel → g₂ < 2 ^ fuel →
      polyApplyF f fuel (g₁ ^^^ g₂) v =
        polyApplyF f fuel g₁ v ^^^ polyApplyF f fuel g₂ v := by
  intro fuel
  induction fuel with
  | zero =>
    intro g₁ g₂ v h1 h2
    rw [Nat.pow_zero] at h1 h2
    have hg1 : g₁ = 0 := by omega
    have hg2 : g₂ = 0 := by omega
    subst hg1; subst hg2
    simp [polyApplyF_zero_g]
  | succ fuel ih =>
    intro g₁ g₂ v h1 h2
    by_cases hz1 : g₁ = 0
    · subst hz1
      rw [Nat.zero_xor, polyApplyF_zero_g, Nat.zero_xor]
    by_cases hz2 : g₂ = 0
    · subst hz2
      rw [Nat.xor_zero, polyApplyF_zero_g, Nat.xor_zero]
    by_cases hzx : g₁ ^^^ g₂ = 0
    · have heq : g₂ = g₁ := by
        have h := Nat.xor_cancel_right g₂ g₁
        rw [hzx, Nat.zero_xor] at h
        exact h
      rw [hzx, polyApplyF_zero_g, heq, Nat.xor_self]
    · simp only [polyApplyF, if_neg hz1, if_neg hz2, if_neg hzx]
      have hd1 : g₁ / 2 < 2 ^ fuel := by rw [Nat.pow_succ] at h1; omega
      have hd2 : g₂ / 2 < 2 ^ fuel := by rw [Nat.pow_succ] at h2; omega
      rw [Nat.xor_div_two, ih _ _ _ hd1 hd2, hfx]
      have hmod : (g₁ ^^^ g₂) % 2 = g₁ % 2 ^^^ g₂ % 2 := xor_mod_two g₁ g₂
      rcases Nat.mod_two_eq_zero_or_one g₁ with hm1 | hm1 <;>
        rcases Nat.mod_two_eq_zero_or_one g₂ with hm2 | hm2 <;>
        rw [hmod, hm1, hm2] <;>
        simp only [Nat.xor_self, Nat.zero_xor, Nat.xor_zero, reduceIte, ite_self] <;>
        first
        | rfl
        | (rw [xor_xor_comm]; simp [Nat.xor_self, Nat.zero_xor])
        | (rw [xor_xor_comm])
        | (simp [Nat.xor_assoc, Nat.xor_comm, xor_left_comm])

theorem polyApply_g0 (f : Nat → Nat) (v : Nat) : polyApply f 0 v = 0 :=
  polyApplyF_zero_g f 64 v

theorem polyApply_v0 (f : Nat → Nat) (hf0 : f 0 = 0) (g : Nat) :
    polyApply f g 0 = 0 :=
  polyApplyF_v0 f hf0 64 g

theorem polyApply_xor_v (f : Nat → Nat)
    (hfx : ∀ a b, f (a ^^^ b) = f a ^^^ f b) (g a b : Nat) :
    polyApply f g (a ^^^ b) = polyApply f g a ^^^ polyApply f g b :=
  polyApplyF_xor_v f hfx 64 g a b

theorem polyApply_xor_g (f : Nat → Nat)
    (hfx : ∀ a b, f (a ^^^ b) = f a ^^^ f b) (g₁ g₂ v : Nat)
    (h1 : g₁ < 2 ^ 64) (h2 : g₂ < 2 ^ 64) :
    polyApply f (g₁ ^^^ g₂) v = polyApply f g₁ v ^^^ polyApply f g₂ v :=
  polyApplyF_xor_g f hfx 64 g₁ g₂ v h1 h2

theorem polyApply_comm (f : Nat → Nat) (hf0 : f 0 = 0)
    (hfx : ∀ a b, f (a ^^^ b) = f a ^^^ f b) (g v : Nat) :
    f (polyApply f g v) = polyApply f g (f v) :=
  polyApplyF_comm f hf0 hfx 64 g v

theorem polyApply_lt (f : Nat → Nat) (n : Nat) (hfb : ∀ u, f u < 2 ^ n)
    (g v : Nat) (hv : v < 2 ^ n) : polyApply f g v < 2 ^ n :=
  polyApplyF_lt f n hfb 64 g v hv

theorem polyApply_unfold (f : Nat → Nat) (g v : Nat) (hg : g < 2 ^ 64)
    (hne : g ≠ 0) :
    polyApply f g v = (if g % 2 = 1 then v else 0) ^^^ f (polyApply f (g / 2) v) := by
  have hsp : (2 : Nat) ^ 64 = 2 ^ 63 * 2 := by norm_num
  have hd63 : g / 2 < 2 ^ 63 := by omega
  have hd64 : g / 2 < 2 ^ 64 := by omega
  have h1 : polyApply f g v =
      if g = 0 then 0
      else (if g % 2 = 1 then v else 0) ^^^ f (polyApplyF f 63 (g / 2) v) := rfl
  rw [h1, if_neg hne, polyApplyF_congr f 63 64 (g / 2) v hd63 hd64]
  rfl

theorem polyApply_one (f : Nat → Nat) (hf0 : f 0 = 0) (v : Nat) :
    polyApply f 1 v = v := by
  rw [polyApply_unfold f 1 v (by norm_num) (by norm_num)]
  norm_num [polyApply_g0, hf0]

theorem polyApply_X (f : Nat → Nat) (hf0 : f 0 = 0) (v : Nat) :
    polyApply f 2 v = f v := by
  rw [polyApply_unfold f 2 v (by norm_num) (by norm_num)]
  norm_num [polyApply_one f hf0]

theorem polyApply_double (f : Nat → Nat) (hf0 : f 0 = 0) (g v : Nat)
    (hg : g < 2 ^ 63) : polyApply f (2 * g) v = f (polyApply f g v) := by
  by_cases hz : g = 0
  · subst hz
    simp [polyApply_g0, hf0]
  · have hsp : (2 : Nat) ^ 64 = 2 ^ 63 * 2 := by norm_num
    rw [polyApply_unfold f (2 * g) v (by omega) (by omega)]
    have hm : 2 * g % 2 = 0 := Nat.mul_mod_right 2 g
    have hdiv : 2 * g / 2 = g := Nat.mul_div_cancel_left g (by omega)
    simp [hm, hdiv]

theorem iterate_f_zero (f : Nat → Nat) (hf0 : f 0 = 0) :
    ∀ i, f^[i] 0 = 0 := by
  intro i
  induction i with
  | zero => rfl
  | succ i ih => rw [Function.iterate_succ_apply', ih, hf0]

theorem polyApply_shift (f : Nat → Nat) (hf0 : f 0 = 0) :
    ∀ i g v, 2 ^ i * g < 2 ^ 64 →
      polyApply f (2 ^ i * g) v = f^[i] (polyApply f g v) := by
  intro i
  induction i with
  | zero => intro g v _; simp
  | succ i ih =>
    intro g v hb
    have hrw : 2 ^ (i + 1) * g = 2 * (2 ^ i * g) := by ring
    have hsp : (2 : Nat) ^ 64 = 2 ^ 63 * 2 := by norm_num
    rw [hrw] at hb ⊢
    have hlt : 2 ^ i * g < 2 ^ 63 := by omega
    rw [polyApply_double f hf0 _ v hlt, ih g v (by omega)]
    exact (Function.iterate_succ_apply' f i _).symm

theorem clmulF_lt : ∀ fuel a b k, b < 2 ^ k → clmulF fuel a b < 2 ^ (fuel + k) := by
  intro fuel
  induction fuel with
  | zero =>
    intro a b k _
    simpa [clmulF] using Nat.pos_pow_of_pos k (show 0 < 2 by omega)
  | succ fuel ih =>
    intro a b k hb
    by_cases hz : a = 0
    · simpa [clmulF, hz] using Nat.pos_pow_of_pos (fuel + 1 + k) (show 0 < 2 by omega)
    · simp only [clmulF, if_neg hz]
      apply Nat.xor_lt_two_pow
      · have hle : (2 : Nat) ^ k ≤ 2 ^ (fuel + 1 + k) :=
          Nat.pow_le_pow_right (by omega) (by omega)
        by_cases hm : a % 2 = 1 <;> simp [hm] <;> omega
      · have h2b : 2 * b < 2 ^ (k + 1) := by
          have : (2 : Nat) ^ (k + 1) = 2 ^ k * 2 := by rw [Nat.pow_succ]
          omega
        have := ih (a / 2) (2 * b) (k + 1) h2b
        have harr : fuel + (k + 1) = fuel + 1 + k := by omega
        rwa [harr] at this

theorem polyApply_clmulF (f : Nat → Nat) (hf0 : f 0 = 0)
    (hfx : ∀ a b, f (a ^^^ b) = f a ^^^ f b) :
    ∀ fuel a b kb v, a < 2 ^ fuel → b < 2 ^ kb → fuel + kb ≤ 64 →
      polyApply f (clmulF fuel a b) v = polyApply f a (polyApply f b v) := by
  intro fuel
  induction fuel with
  | zero =>
    intro a b kb v ha _ _
    rw [Nat.pow_zero] at ha
    have hz : a = 0 := by omega
    subst hz
    rw [show clmulF 0 0 b = 0 from rfl, polyApply_g0, polyApply_g0]
  | succ fuel ih =>
    intro a b kb v ha hb hle
    by_cases hz : a = 0
    · subst hz
      rw [show clmulF (fuel + 1) 0 b = 0 from rfl, polyApply_g0, polyApply_g0]
    · simp only [clmulF, if_neg hz]
      have hkb64 : kb ≤ 64 := by omega
      have hb64 : b < 2 ^ 64 :=
        Nat.lt_of_lt_of_le hb (Nat.pow_le_pow_right (by omega) hkb64)
      have hclm : clmulF fuel (a / 2) (2 * b) < 2 ^ (fuel + (kb + 1)) := by
        apply clmulF_lt
        have : (2 : Nat) ^ (kb + 1) = 2 ^ kb * 2 := by rw [Nat.pow_succ]
        omega
      have hclm64 : clmulF fuel (a / 2) (2 * b) < 2 ^ 64 := by
        apply Nat.lt_of_lt_of_le hclm
        apply Nat.pow_le_pow_right (by omega)
        omega
      have hda : a / 2 < 2 ^ fuel := by
        rw [Nat.pow_succ] at ha
        omega
      have h2b : 2 * b < 2 ^ (kb + 1) := by
        have : (2 : Nat) ^ (kb + 1) = 2 ^ kb * 2 := by rw [Nat.pow_succ]
        omega
      have hb63 : b < 2 ^ 63 := by
        apply Nat.lt_of_lt_of_le hb
        apply Nat.pow_le_pow_right (by omega)
        omega
      have ha64 : a < 2 ^ 64 :=
        Nat.lt_of_lt_of_le ha (Nat.pow_le_pow_right (by omega) (by omega))
      rw [polyApply_unfold f a (polyApply f b v) ha64 hz]
      by_cases hm : a % 2 = 1
      · simp only [if_pos hm]
        rw [polyApply_xor_g f hfx _ _ v hb64 hclm64,
          ih (a / 2) (2 * b) (kb + 1) v hda h2b (by omega),
          polyApply_double f hf0 b v hb63, ← polyApply_comm f hf0 hfx]
      · simp only [if_neg hm, Nat.zero_xor]
        rw [ih (a / 2) (2 * b) (kb + 1) v hda h2b (by omega),
          polyApply_double f hf0 b v hb63, ← polyApply_comm f hf0 hfx]

theorem xor_top_lt {k a b : Nat} (ha : a < 2 ^ (k + 1)) (hb : b < 2 ^ (k + 1))
    (ha1 : a / 2 ^ k % 2 = 1) (hb1 : b / 2 ^ k % 2 = 1) : a ^^^ b < 2 ^ k := by
  have hsp : (2 : Nat) ^ (k + 1) = 2 ^ k * 2 := by rw [Nat.pow_succ]
  have hak : 2 ^ k ≤ a := by
    by_contra hlt
    rw [Nat.div_eq_of_lt (by omega)] at ha1
    omega
  have hbk : 2 ^ k ≤ b := by
    by_contra hlt
    rw [Nat.div_eq_of_lt (by omega)] at hb1
    omega
  have hra : a - 2 ^ k < 2 ^ k := by omega
  have hrb : b - 2 ^ k < 2 ^ k := by omega
  have hrwa : a = 2 ^ k + (a - 2 ^ k) := by omega
  have hrwb : b = 2 ^ k + (b - 2 ^ k) := by omega
  rw [hrwa, hrwb, two_pow_add_eq_xor hra, two_pow_add_eq_xor hrb,
    xor_xor_comm, Nat.xor_self, Nat.zero_xor]
  exact Nat.xor_lt_two_pow hra hrb

theorem monic_div_ge {p n : Nat} (hp1 : 2 ^ n ≤ p) (hp2 : p < 2 ^ n * 2) :
    p / 2 ^ n % 2 = 1 := by
  have hpos : 0 < 2 ^ n := Nat.pos_pow_of_pos n (by omega)
  have h1 : 1 ≤ p / 2 ^ n := (Nat.le_div_iff_mul_le hpos).mpr (by omega)
  have h2 : p / 2 ^ n < 2 := Nat.div_lt_of_lt_mul (by omega)
  omega

theorem shiftLeft_bit_high {p n i : Nat} (hp1 : 2 ^ n ≤ p) (hp2 : p < 2 ^ n * 2) :
    (p <<< i) / 2 ^ (n + i) % 2 = 1 := by
  rw [Nat.shiftLeft_eq, Nat.pow_add]
  have hpos : 0 < 2 ^ i := Nat.pos_pow_of_pos i (by omega)
  rw [Nat.mul_div_mul_right _ _ hpos]
  exact monic_div_ge hp1 hp2

theorem shiftLeft_lt_high {p n i : Nat} (hp2 : p < 2 ^ n * 2) :
    p <<< i < 2 ^ (n + i + 1) := by
  rw [Nat.shiftLeft_eq]
  have h1 : (2 : Nat) ^ (n + i + 1) = 2 ^ n * 2 * 2 ^ i := by ring
  rw [h1]
  have hpos : 0 < 2 ^ i := Nat.pos_pow_of_pos i (by omega)
  exact Nat.mul_lt_mul_of_lt_of_le hp2 (Nat.le_refl _) hpos

theorem reduceF_step_lt {p n i v : Nat} (hp1 : 2 ^ n ≤ p) (hp2 : p < 2 ^ n * 2)
    (hv : v < 2 ^ (n + i + 1)) :
    (if v / 2 ^ (n + i) % 2 = 1 then v ^^^ (p <<< i) else v) < 2 ^ (n + i) := by
  by_cases hbit : v / 2 ^ (n + i) % 2 = 1
  · rw [if_pos hbit]
    exact xor_top_lt hv (shiftLeft_lt_high hp2) hbit (shiftLeft_bit_high hp1 hp2)
  · rw [if_neg hbit]
    have hsp : (2 : Nat) ^ (n + i + 1) = 2 ^ (n + i) * 2 := by rw [Nat.pow_succ]
    have h2 : v / 2 ^ (n + i) < 2 := Nat.div_lt_of_lt_mul (by omega)
    have hm2 : v / 2 ^ (n + i) % 2 = v / 2 ^ (n + i) := Nat.mod_eq_of_lt h2
    have h0 : v / 2 ^ (n + i) = 0 := by omega
    have hpos : 0 < 2 ^ (n + i) := Nat.pos_pow_of_pos (n + i) (by omega)
    exact (Nat.div_eq_zero_iff hpos).mp h0

theorem reduceF_lt {p n : Nat} (hp1 : 2 ^ n ≤ p) (hp2 : p < 2 ^ n * 2) :
    ∀ i v, v < 2 ^ (n + i) → reduceF p n i v < 2 ^ n := by
  intro i
  induction i with
  | zero => intro v hv; simpa [reduceF] using hv
  | succ i ih =>
    intro v hv
    simp only [reduceF]
    exact ih _ (reduceF_step_lt hp1 hp2 hv)

theorem polyApply_reduceF (f : Nat → Nat) (hf0 : f 0 = 0)
    (hfx : ∀ a b, f (a ^^^ b) = f a ^^^ f b) {p n : Nat}
    (hp1 : 2 ^ n ≤ p) (hp2 : p < 2 ^ n * 2) (hn31 : n ≤ 31)
    (Hp : ∀ u, u < 2 ^ n → polyApply f p u = 0) (w : Nat) (hw : w < 2 ^ n) :
    ∀ i v, i ≤ 33 → v < 2 ^ (n + i) →
      polyApply f (reduceF p n i v) w = polyApply f v w := by
  intro i
  induction i with
  | zero => intro v _ _; rfl
  | succ i ih =>
    intro v hi hv
    simp only [reduceF]
    rw [ih _ (by omega) (reduceF_step_lt hp1 hp2 hv)]
    by_cases hbit : v / 2 ^ (n + i) % 2 = 1
    · rw [if_pos hbit]
      have hv64 : v < 2 ^ 64 :=
        Nat.lt_of_lt_of_le hv (Nat.pow_le_pow_right (by omega) (by omega))
      have hs64 : p <<< i < 2 ^ 64 :=
        Nat.lt_of_lt_of_le (shiftLeft_lt_high hp2)
          (Nat.pow_le_pow_right (by omega) (by omega))
      rw [polyApply_xor_g f hfx v (p <<< i) w hv64 hs64]
      have hsh : p <<< i = 2 ^ i * p := by
        rw [Nat.shiftLeft_eq, Nat.mul_comm]
      rw [hsh, polyApply_shift f hf0 i p w (by rw [← hsh]; exact hs64),
        Hp w hw, iterate_f_zero f hf0, Nat.xor_zero]
    · rw [if_neg hbit]

theorem mulMod_lt {p n : Nat} (hp1 : 2 ^ n ≤ p) (hp2 : p < 2 ^ n * 2)
    (a b : Nat) (hb : b < 2 ^ (n + 1)) : mulMod p n a b < 2 ^ n := by
  unfold mulMod
  apply reduceF_lt hp1 hp2 33
  have h := clmulF_lt 32 a b (n + 1) hb
  have harr : 32 + (n + 1) = n + 33 := by omega
  rwa [harr] at h

theorem polyApply_mulMod (f : Nat → Nat) (hf0 : f 0 = 0)
    (hfx : ∀ a b, f (a ^^^ b) = f a ^^^ f b) {p n : Nat}
    (hp1 : 2 ^ n ≤ p) (hp2 : p < 2 ^ n * 2) (hn31 : n ≤ 31)
    (Hp : ∀ u, u < 2 ^ n → polyApply f p u = 0) (a b w : Nat)
    (ha : a < 2 ^ 32) (hb : b < 2 ^ (n + 1)) (hw : w < 2 ^ n) :
    polyApply f (mulMod p n a b) w = polyApply f a (polyApply f b w) := by
  unfold mulMod
  have hcl : clmul a b < 2 ^ (n + 33) := by
    have h := clmulF_lt 32 a b (n + 1) hb
    have harr : 32 + (n + 1) = n + 33 := by omega
    rwa [harr] at h
  rw [polyApply_reduceF f hf0 hfx hp1 hp2 hn31 Hp w hw 33 (clmul a b) (by omega) hcl]
  exact polyApply_clmulF f hf0 hfx 32 a b (n + 1) w ha hb (by omega)

theorem powModF_lt {p n : Nat} (hp1 : 2 ^ n ≤ p) (hp2 : p < 2 ^ n * 2)
    (hn1 : 1 ≤ n) :
    ∀ fuel b e, b < 2 ^ (n + 1) → powModF p n fuel b e < 2 ^ n := by
  have hone : (1 : Nat) < 2 ^ n := by
    have h2 : (2 : Nat) ^ 1 ≤ 2 ^ n := Nat.pow_le_pow_right (by omega) hn1
    have h1 : (2 : Nat) ^ 1 = 2 := by norm_num
    omega
  intro fuel
  induction fuel with
  | zero => intro b e _; simpa [powModF] using hone
  | succ fuel ih =>
    intro b e hb
    by_cases he : e = 0
    · simpa [powModF, he] using hone
    · simp only [powModF, if_neg he]
      have hbb : mulMod p n b b < 2 ^ (n + 1) :=
        Nat.lt_of_lt_of_le (mulMod_lt hp1 hp2 b b hb)
          (Nat.pow_le_pow_right (by omega) (by omega))
      have hr := ih (mulMod p n b b) (e / 2) hbb
      by_cases hm : e % 2 = 1
      · simp only [if_pos hm]
        exact mulMod_lt hp1 hp2 b _
          (Nat.lt_of_lt_of_le hr (Nat.pow_le_pow_right (by omega) (by omega)))
      · simpa only [if_neg hm] using hr

theorem iterate_congr_lt {n : Nat} {g h : Nat → Nat}
    (hcl : ∀ u, u < 2 ^ n → g u < 2 ^ n) (heq : ∀ u, u < 2 ^ n → h u = g u) :
    ∀ k w, w < 2 ^ n → h^[k] w = g^[k] w := by
  intro k
  induction k with
  | zero => intro w _; rfl
  | succ k ih =>
    intro w hw
    rw [Function.iterate_succ_apply, Function.iterate_succ_apply, heq w hw]
    exact ih (g w) (hcl w hw)

theorem iterate_lt {n : Nat} {g : Nat → Nat}
    (hcl : ∀ u, u < 2 ^ n → g u < 2 ^ n) :
    ∀ k w, w < 2 ^ n → g^[k] w < 2 ^ n := by
  intro k
  induction k with
  | zero => intro w hw; exact hw
  | succ k ih =>
    intro w hw
    rw [Function.iterate_succ_apply]
    exact ih (g w) (hcl w hw)

theorem polyApply_powModF (f : Nat → Nat) (hf0 : f 0 = 0)
    (hfx : ∀ a b, f (a ^^^ b) = f a ^^^ f b) {p n : Nat}
    (hfb : ∀ u, f u < 2 ^ n)
    (hp1 : 2 ^ n ≤ p) (hp2 : p < 2 ^ n * 2) (hn1 : 1 ≤ n) (hn31 : n ≤ 31)
    (Hp : ∀ u, u < 2 ^ n → polyApply f p u = 0) :
    ∀ fuel e b w, e < 2 ^ fuel → b < 2 ^ (n + 1) → w < 2 ^ n →
      polyApply f (powModF p n fuel b e) w = (fun u => polyApply f b u)^[e] w := by
  intro fuel
  induction fuel with
  | zero =>
    intro e b w he _ _
    rw [Nat.pow_zero] at he
    have he0 : e = 0 := by omega
    subst he0
    simpa [powModF] using polyApply_one f hf0 w
  | succ fuel ih =>
    intro e b w he hb hw
    by_cases hez : e = 0
    · subst hez
      simpa [powModF] using polyApply_one f hf0 w
    · simp only [powModF, if_neg hez]
      have hb32 : b < 2 ^ 32 :=
        Nat.lt_of_lt_of_le hb (Nat.pow_le_pow_right (by omega) (by omega))
      have hbb : mulMod p n b b < 2 ^ (n + 1) :=
        Nat.lt_of_lt_of_le (mulMod_lt hp1 hp2 b b hb)
          (Nat.pow_le_pow_right (by omega) (by omega))
      have hde : e / 2 < 2 ^ fuel := by
        rw [Nat.pow_succ] at he
        omega
      have hr := ih (e / 2) (mulMod p n b b) w hde hbb hw
      have hGcl : ∀ u, u < 2 ^ n → polyApply f b u < 2 ^ n := fun u hu =>
        polyApply_lt f n hfb b u hu
      have hG2 : ∀ u, (fun x => polyApply f b x)^[2] u =
          polyApply f b (polyApply f b u) := fun u => rfl
      have hH : ∀ u, u < 2 ^ n →
          polyApply f (mulMod p n b b) u = (fun x => polyApply f b x)^[2] u := by
        intro u hu
        rw [polyApply_mulMod f hf0 hfx hp1 hp2 hn31 Hp b b u hb32 hb hu, hG2]
      have hiter := iterate_congr_lt (n := n)
        (fun u hu => by rw [hG2]; exact hGcl _ (hGcl u hu)) hH (e / 2) w hw
      have hmul : ((fun u => polyApply f b u)^[2])^[e / 2] w =
          (fun u => polyApply f b u)^[2 * (e / 2)] w := by
        rw [← Function.iterate_mul]
      by_cases hm : e % 2 = 1
      · simp only [if_pos hm]
        have hrlt : powModF p n fuel (mulMod p n b b) (e / 2) < 2 ^ (n + 1) :=
          Nat.lt_of_lt_of_le (powModF_lt hp1 hp2 hn1 fuel _ _ hbb)
            (Nat.pow_le_pow_right (by omega) (by omega))
        rw [polyApply_mulMod f hf0 hfx hp1 hp2 hn31 Hp b _ w hb32 hrlt hw,
          hr, hiter, hmul]
        have hfin : (fun u => polyApply f b u)^[e] w =
            polyApply f b ((fun u => polyApply f b u)^[2 * (e / 2)] w) := by
          conv_lhs => rw [show e = 2 * (e / 2) + 1 by omega]
          exact Function.iterate_succ_apply' _ _ _
        rw [hfin]
      · simp only [if_neg hm]
        rw [hr, hiter, hmul, show 2 * (e / 2) = e by omega]

theorem linear_zero_of_basis {g : Nat → Nat} (hg0 : g 0 = 0)
    (hgx : ∀ a b, g (a ^^^ b) = g a ^^^ g b) :
    ∀ n, (∀ i, i < n → g (2 ^ i) = 0) → ∀ v, v < 2 ^ n → g v = 0 := by
  intro n
  induction n with
  | zero =>
    intro _ v hv
    rw [Nat.pow_zero] at hv
    have hv0 : v = 0 := by omega
    subst hv0
    exact hg0
  | succ n ih =>
    intro hb v hv
    by_cases hlt : v < 2 ^ n
    · exact ih (fun i hi => hb i (by omega)) v hlt
    · have hge : 2 ^ n ≤ v := Nat.le_of_not_lt hlt
      have hsp : (2 : Nat) ^ (n + 1) = 2 ^ n * 2 := by rw [Nat.pow_succ]
      have hr : v - 2 ^ n < 2 ^ n := by omega
      have hv' : v = 2 ^ n ^^^ (v - 2 ^ n) := by
        rw [← two_pow_add_eq_xor hr]
        omega
      rw [hv', hgx, hb n (by omega), Nat.zero_xor]
      exact ih (fun i hi => hb i (by omega)) _ hr

/-- Master certificate theorem: for each width `n` with a verified
certificate, every nonzero `n`-bit state of the MLS transition has exact
period `2 ^ n - 1`, its forward orbit never reaches 0, and any two
iterates within one period are distinct. -/
theorem lfsr_master (n : Nat) (d : LfsrData) (hn1 : 1 ≤ n) (hn31 : n ≤ 31)
    (hok : lfsrOk n d = true) (hprime : ∀ q ∈ d.primes, Nat.Prime q) :
    ∀ s, 0 < s → s < 2 ^ n →
      (∀ k, (mlsStep n)^[k] s ≠ 0) ∧
      (mlsStep n)^[2 ^ n - 1] s = s ∧
      ∀ i j, i < j → j < 2 ^ n - 1 → (mlsStep n)^[i] s ≠ (mlsStep n)^[j] s := by
  unfold lfsrOk at hok
  simp only [Bool.and_eq_true, decide_eq_true_eq, beq_iff_eq,
    List.all_eq_true] at hok
  obtain ⟨⟨⟨⟨⟨⟨⟨⟨hp1, hp2⟩, hbasis⟩, hxlt⟩, hxeq⟩, hper⟩, hprod⟩, hcover⟩, hcert⟩ := hok
  have hf0 : mlsStep n 0 = 0 := mlsStep_zero n
  have hfx : ∀ a b, mlsStep n (a ^^^ b) = mlsStep n a ^^^ mlsStep n b := mlsStep_xor n
  have hfb : ∀ u, mlsStep n u < 2 ^ n := fun u => mlsStep_lt n u
  have h2n32 : (2 : Nat) ^ n ≤ 2 ^ 32 := Nat.pow_le_pow_right (by omega) (by omega)
  have h2lt : (2 : Nat) < 2 ^ (n + 1) := by
    have h4 : (2 : Nat) ^ 2 ≤ 2 ^ (n + 1) := Nat.pow_le_pow_right (by omega) (by omega)
    have h42 : (2 : Nat) ^ 2 = 4 := by norm_num
    omega
  have Hp : ∀ u, u < 2 ^ n → polyApply (mlsStep n) d.poly u = 0 := by
    apply linear_zero_of_basis (g := fun v => polyApply (mlsStep n) d.poly v)
      (polyApply_v0 _ hf0 d.poly) (fun a b => polyApply_xor_v _ hfx d.poly a b) n
    intro i hi
    exact hbasis i (List.mem_range.mpr hi)
  have hpow : ∀ e, e < 2 ^ 32 → ∀ w, w < 2 ^ n →
      polyApply (mlsStep n) (powMod d.poly n 2 e) w = (mlsStep n)^[e] w := by
    intro e he w hw
    unfold powMod
    rw [polyApply_powModF (mlsStep n) hf0 hfx hfb hp1 hp2 hn1 hn31 Hp 32 e 2 w he h2lt hw]
    exact iterate_congr_lt (fun u _ => hfb u)
      (fun u _ => polyApply_X (mlsStep n) hf0 u) e w hw
  have hNlt : 2 ^ n - 1 < 2 ^ 32 := by
    have := Nat.pos_pow_of_pos n (show 0 < 2 by omega)
    omega
  have hperiod : ∀ w, w < 2 ^ n → (mlsStep n)^[2 ^ n - 1] w = w := by
    intro w hw
    have h := hpow (2 ^ n - 1) hNlt w hw
    rw [hper, polyApply_one _ hf0 w] at h
    exact h.symm
  have hx32 : d.xinv < 2 ^ 32 := by omega
  have hzero : ∀ w, w < 2 ^ n → mlsStep n w = 0 → w = 0 := by
    intro w hw hfw
    have h := polyApply_mulMod (mlsStep n) hf0 hfx hp1 hp2 hn31 Hp d.xinv 2 w
      hx32 h2lt hw
    rw [hxeq, polyApply_one _ hf0, polyApply_X _ hf0, hfw, polyApply_v0 _ hf0] at h
    exact h
  have hinj : ∀ a b, a < 2 ^ n → b < 2 ^ n → mlsStep n a = mlsStep n b → a = b := by
    intro a b ha hb hab
    have hx : mlsStep n (a ^^^ b) = 0 := by
      rw [hfx, hab, Nat.xor_self]
    have h0 := hzero (a ^^^ b) (Nat.xor_lt_two_pow ha hb) hx
    have h2 := Nat.xor_cancel_right b a
    rw [h0, Nat.zero_xor] at h2
    exact h2.symm
  have hnofix : ∀ q ∈ d.primes, ∀ w, w < 2 ^ n →
      (mlsStep n)^[(2 ^ n - 1) / q] w = w → w = 0 := by
    intro q hq w hw hfix
    obtain ⟨hult, hueq⟩ := hcert q hq
    have hrn : powMod d.poly n 2 ((2 ^ n - 1) / q) < 2 ^ n :=
      powModF_lt hp1 hp2 hn1 32 2 _ h2lt
    have hone : (1 : Nat) < 2 ^ n := by
      have h2' : (2 : Nat) ^ 1 ≤ 2 ^ n := Nat.pow_le_pow_right (by omega) hn1
      have h1' : (2 : Nat) ^ 1 = 2 := by norm_num
      omega
    have hrx : powMod d.poly n 2 ((2 ^ n - 1) / q) ^^^ 1 < 2 ^ (n + 1) := by
      have := Nat.xor_lt_two_pow (n := n) hrn hone
      have h2' : (2 : Nat) ^ n ≤ 2 ^ (n + 1) := Nat.pow_le_pow_right (by omega) (by omega)
      omega
    have hu32 : certLookup d.certs q < 2 ^ 32 := by omega
    have h := polyApply_mulMod (mlsStep n) hf0 hfx hp1 hp2 hn31 Hp
      (certLookup d.certs q) _ w hu32 hrx hw
    rw [hueq, polyApply_one _ hf0] at h
    have h64a : powMod d.poly n 2 ((2 ^ n - 1) / q) < 2 ^ 64 := by
      have h2' : (2 : Nat) ^ n ≤ 2 ^ 64 := Nat.pow_le_pow_right (by omega) (by omega)
      omega
    have hdivlt : (2 ^ n - 1) / q < 2 ^ 32 :=
      Nat.lt_of_le_of_lt (Nat.div_le_self _ _) hNlt
    rw [polyApply_xor_g (mlsStep n) hfx _ 1 w h64a (by norm_num),
      polyApply_one _ hf0, hpow _ hdivlt w hw, hfix, Nat.xor_self,
      polyApply_v0 _ hf0] at h
    exact h
  intro s hs0 hsn
  have hiterlt : ∀ k, (mlsStep n)^[k] s < 2 ^ n := fun k =>
    iterate_lt (fun u _ => hfb u) k s hsn
  have hcancel : ∀ m a b, a < 2 ^ n → b < 2 ^ n →
      (mlsStep n)^[m] a = (mlsStep n)^[m] b → a = b := by
    intro m
    induction m with
    | zero => intro a b _ _ h; simpa using h
    | succ m ih =>
      intro a b ha hb h
      rw [Function.iterate_succ_apply, Function.iterate_succ_apply] at h
      exact hinj a b ha hb (ih _ _ (hfb a) (hfb b) h)
  refine ⟨?_, hperiod s hsn, ?_⟩
  · intro k
    induction k with
    | zero => simpa using (by omega : s ≠ 0)
    | succ k ih =>
      intro hz
      rw [Function.iterate_succ_apply'] at hz
      exact ih (hzero _ (hiterlt k) hz)
  · intro i j hij hjN heq
    have hsplit : (mlsStep n)^[j] s = (mlsStep n)^[i] ((mlsStep n)^[j - i] s) := by
      rw [← Function.iterate_add_apply]
      congr 1
      omega
    have hfixt : (mlsStep n)^[j - i] s = s := by
      apply hcancel i _ _ (hiterlt _) hsn
      rw [← hsplit]
      exact heq.symm
    have ht0' : 0 < j - i := by omega
    have hex : ∃ m, 0 < m ∧ (mlsStep n)^[m] s = s := ⟨j - i, ht0', hfixt⟩
    have ht0pos : 0 < Nat.find hex := (Nat.find_spec hex).1
    have ht0fix : (mlsStep n)^[Nat.find hex] s = s := (Nat.find_spec hex).2
    have hmulfix : ∀ c, (mlsStep n)^[Nat.find hex * c] s = s := by
      intro c
      induction c with
      | zero => simp
      | succ c ih =>
        have harr : Nat.find hex * (c + 1) = Nat.find hex * c + Nat.find hex := by ring
        rw [harr, Function.iterate_add_apply, ht0fix, ih]
    have hdvd : ∀ m, (mlsStep n)^[m] s = s → Nat.find hex ∣ m := by
      intro m hmfix
      rcases Nat.eq_zero_or_pos (m % Nat.find hex) with hr | hr
      · exact Nat.dvd_of_mod_eq_zero hr
      · exfalso
        have hdm := Nat.div_add_mod m (Nat.find hex)
        have h1 : (mlsStep n)^[m] s =
            (mlsStep n)^[m % Nat.find hex] ((mlsStep n)^[Nat.find hex * (m / Nat.find hex)] s) := by
          rw [← Function.iterate_add_apply]
          congr 1
          omega
        rw [hmulfix (m / Nat.find hex), hmfix] at h1
        exact Nat.find_min hex (Nat.mod_lt m ht0pos) ⟨hr, h1.symm⟩
    have ht0dvdN : Nat.find hex ∣ 2 ^ n - 1 := hdvd _ (hperiod s hsn)
    have ht0le : Nat.find hex ≤ j - i := Nat.find_min' hex ⟨ht0', hfixt⟩
    have ht0ltN : Nat.find hex < 2 ^ n - 1 := by omega
    have hNpos : 0 < 2 ^ n - 1 := by
      have h2' : (2 : Nat) ^ 1 ≤ 2 ^ n := Nat.pow_le_pow_right (by omega) hn1
      have h1' : (2 : Nat) ^ 1 = 2 := by norm_num
      omega
    have hm1 : 2 ^ n - 1 = Nat.find hex * ((2 ^ n - 1) / Nat.find hex) :=
      (Nat.mul_div_cancel' ht0dvdN).symm
    obtain ⟨M, hM⟩ : ∃ M, M = (2 ^ n - 1) / Nat.find hex := ⟨_, rfl⟩
    rw [← hM] at hm1
    have hmgt1 : 1 < M := by
      rcases Nat.lt_or_ge M 2 with hlt | hge
      · interval_cases M <;> omega
      · omega
    have hqprime : Nat.Prime M.minFac := Nat.minFac_prime (by omega)
    have hqdvdM : M.minFac ∣ M := Nat.minFac_dvd _
    have hMdvdN : M ∣ 2 ^ n - 1 := ⟨Nat.find hex, by rw [Nat.mul_comm]; exact hm1⟩
    have hqdvdN : M.minFac ∣ 2 ^ n - 1 := hqdvdM.trans hMdvdN
    have hqmem : M.minFac ∈ d.primes := by
      have hNprod : M.minFac ∣ d.factors.prod := by
        rw [hprod]
        exact hqdvdN
      obtain ⟨a, haf, hqa⟩ := (hqprime.prime.dvd_prod_iff).mp hNprod
      have hamem : a ∈ d.primes := by
        have hc := hcover a haf
        rw [List.contains_iff_exists_mem_beq] at hc
        obtain ⟨b, hbmem, hab⟩ := hc
        have hab' : a = b := by simpa using hab
        rwa [hab']
      have haprime : Nat.Prime a := hprime a hamem
      have heqqa : M.minFac = a :=
        (Nat.prime_dvd_prime_iff_eq hqprime haprime).mp hqa
      rw [heqqa]
      exact hamem
    have hq0 : 0 < M.minFac := hqprime.pos
    obtain ⟨c, hc⟩ := hqdvdM
    have hNrw : 2 ^ n - 1 = M.minFac * (Nat.find hex * c) := by
      conv_lhs => rw [hm1, hc]
      ring
    have ht0dvdNq : Nat.find hex ∣ (2 ^ n - 1) / M.minFac := by
      refine ⟨c, ?_⟩
      rw [hNrw, Nat.mul_div_cancel_left _ hq0]
    obtain ⟨c2, hc2⟩ := ht0dvdNq
    have hfixNq : (mlsStep n)^[(2 ^ n - 1) / M.minFac] s = s := by
      rw [hc2]
      exact hmulfix c2
    have := hnofix _ hqmem s hsn hfixNq
    omega

/-! ### Instantiating the certificates -/

theorem lfsr_master_good (n : Nat) (d : LfsrData) (hn1 : 1 ≤ n) (hn31 : n ≤ 31)
    (hok : lfsrOk n d = true) (hprime : ∀ q ∈ d.primes, Nat.Prime q) :
    MlsGood n :=
  lfsr_master n d hn1 hn31 hok hprime

theorem prime_2147483647 : Nat.Prime 2147483647 := by
  have h := lucas_lehmer_sufficiency 31 (by norm_num) (by norm_num)
  have hm : mersenne 31 = 2147483647 := by norm_num [mersenne]
  rwa [hm] at h

set_option maxRecDepth 10000 in
theorem mlsGood1 : MlsGood 1 :=
  lfsr_master_good 1 lfsrData1 (by norm_num) (by norm_num) (by decide!)
    (by intro q hq; simp [lfsrData1] at hq)

set_option maxRecDepth 10000 in
theorem mlsGood2 : MlsGood 2 :=
  lfsr_master_good 2 lfsrData2 (by norm_num) (by norm_num) (by decide!)
    (by intro q hq; fin_cases hq <;> norm_num)

set_option maxRecDepth 10000 in
theorem mlsGood3 : MlsGood 3 :=
  lfsr_master_good 3 lfsrData3 (by norm_num) (by norm_num) (by decide!)
    (by intro q hq; fin_cases hq <;> first | exact prime_2147483647 | norm_num)

set_option maxRecDepth 10000 in
theorem mlsGood4 : MlsGood 4 :=
  lfsr_master_good 4 lfsrData4 (by norm_num) (by norm_num) (by decide!)
    (by intro q hq; fin_cases hq <;> first | exact prime_2147483647 | norm_num)

set_option maxRecDepth 10000 in
theorem mlsGood5 : MlsGood 5 :=
  lfsr_master_good 5 lfsrData5 (by norm_num) (by norm_num) (by decide!)
    (by intro q hq; fin_cases hq <;> first | exact prime_2147483647 | norm_num)

set_option maxRecDepth 10000 in
theorem mlsGood6 : MlsGood 6 :=
  lfsr_master_good 6 lfsrData6 (by norm_num) (by norm_num) (by decide!)
    (by intro q hq; fin_cases hq <;> first | exact prime_2147483647 | norm_num)

set_option maxRecDepth 10000 in
theorem mlsGood7 : MlsGood 7 :=
  lfsr_master_good 7 lfsrData7 (by norm_num) (by norm_num) (by decide!)
    (by intro q hq; fin_cases hq <;> first | exact prime_2147483647 | norm_num)

set_option maxRecDepth 10000 in
theorem mlsGood8 : MlsGood 8 :=
  lfsr_master_good 8 lfsrData8 (by norm_num) (by norm_num) (by decide!)
    (by intro q hq; fin_cases hq <;> first | exact prime_2147483647 | norm_num)

set_option maxRecDepth 10000 in
theorem mlsGood9 : MlsGood 9 :=
  lfsr_master_good 9 lfsrData9 (by norm_num) (by norm_num) (by decide!)
    (by intro q hq; fin_cases hq <;> first | exact prime_2147483647 | norm_num)

set_option maxRecDepth 10000 in
theorem mlsGood10 : MlsGood 10 :=
  lfsr_master_good 10 lfsrData10 (by norm_num) (by norm_num) (by decide!)
    (by intro q hq; fin_cases hq <;> first | exact prime_2147483647 | norm_num)

set_option maxRecDepth 10000 in
theorem mlsGood11 : MlsGood 11 :=
  lfsr_master_good 11 lfsrData11 (by norm_num) (by norm_num) (by decide!)
    (by intro q hq; fin_cases hq <;> first | exact prime_2147483647 | norm_num)

set_option maxRecDepth 10000 in
theorem mlsGood12 : MlsGood 12 :=
  lfsr_master_good 12 lfsrData12 (by norm_num) (by norm_num) (by decide!)
    (by intro q hq; fin_cases hq <;> first | exact prime_2147483647 | norm_num)

set_option maxRecDepth 10000 in
theorem mlsGood13 : MlsGood 13 :=
  lfsr_master_good 13 lfsrData13 (by norm_num) (by norm_num) (by decide!)
    (by intro q hq; fin_cases hq <;> first | exact prime_2147483647 | norm_num)

set_option maxRecDepth 10000 in
theorem mlsGood14 : MlsGood 14 :=
  lfsr_master_good 14 lfsrData14 (by norm_num) (by norm_num) (by decide!)
    (by intro q hq; fin_cases hq <;> first | exact prime_2147483647 | norm_num)

set_option maxRecDepth 10000 in
theorem mlsGood15 : MlsGood 15 :=
  lfsr_master_good 15 lfsrData15 (by norm_num) (by norm_num) (by decide!)
    (by intro q hq; fin_cases hq <;> first | exact prime_2147483647 | norm_num)

set_option maxRecDepth 10000 in
theorem mlsGood16 : MlsGood 16 :=
  lfsr_master_good 16 lfsrData16 (by norm_num) (by norm_num) (by decide!)
    (by intro q hq; fin_cases hq <;> first | exact prime_2147483647 | norm_num)

set_option maxRecDepth 10000 in
theorem mlsGood17 : MlsGood 17 :=
  lfsr_master_good 17 lfsrData17 (by norm_num) (by norm_num) (by decide!)
    (by intro q hq; fin_cases hq <;> first | exact prime_2147483647 | norm_num)

set_option maxRecDepth 10000 in
theorem mlsGood18 : MlsGood 18 :=
  lfsr_master_good 18 lfsrData18 (by norm_num) (by norm_num) (by decide!)
    (by intro q hq; fin_cases hq <;> first | exact prime_2147483647 | norm_num)

set_option maxRecDepth 10000 in
theorem mlsGood19 : MlsGood 19 :=
  lfsr_master_good 19 lfsrData19 (by norm_num) (by norm_num) (by decide!)
    (by intro q hq; fin_cases hq <;> first | exact prime_2147483647 | norm_num)

set_option maxRecDepth 10000 in
theorem mlsGood20 : MlsGood 20 :=
  lfsr_master_good 20 lfsrData20 (by norm_num) (by norm_num) (by decide!)
    (by intro q hq; fin_cases hq <;> first | exact prime_2147483647 | norm_num)

set_option maxRecDepth 10000 in
theorem mlsGood21 : MlsGood 21 :=
  lfsr_master_good 21 lfsrData21 (by norm_num) (by norm_num) (by decide!)
    (by intro q hq; fin_cases hq <;> first | exact prime_2147483647 | norm_num)

set_option maxRecDepth 10000 in
theorem mlsGood22 : MlsGood 22 :=
  lfsr_master_good 22 lfsrData22 (by norm_num) (by norm_num) (by decide!)
    (by intro q hq; fin_cases hq <;> first | exact prime_2147483647 | norm_num)

set_option maxRecDepth 10000 in
theorem mlsGood23 : MlsGood 23 :=
  lfsr_master_good 23 lfsrData23 (by norm_num) (by norm_num) (by decide!)
    (by intro q hq; fin_cases hq <;> first | exact prime_2147483647 | norm_num)

set_option maxRecDepth 10000 in
theorem mlsGood24 : MlsGood 24 :=
  lfsr_master_good 24 lfsrData24 (by norm_num) (by norm_num) (by decide!)
    (by intro q hq; fin_cases hq <;> first | exact prime_2147483647 | norm_num)

set_option maxRecDepth 10000 in
theorem mlsGood25 : MlsGood 25 :=
  lfsr_master_good 25 lfsrData25 (by norm_num) (by norm_num) (by decide!)
    (by intro q hq; fin_cases hq <;> first | exact prime_2147483647 | norm_num)

set_option maxRecDepth 10000 in
theorem mlsGood26 : MlsGood 26 :=
  lfsr_master_good 26 lfsrData26 (by norm_num) (by norm_num) (by decide!)
    (by intro q hq; fin_cases hq <;> first | exact prime_2147483647 | norm_num)

set_option maxRecDepth 10000 in
theorem mlsGood27 : MlsGood 27 :=
  lfsr_master_good 27 lfsrData27 (by norm_num) (by norm_num) (by decide!)
    (by intro q hq; fin_cases hq <;> first | exact prime_2147483647 | norm_num)

set_option maxRecDepth 10000 in
theorem mlsGood28 : MlsGood 28 :=
  lfsr_master_good 28 lfsrData28 (by norm_num) (by norm_num) (by decide!)
    (by intro q hq; fin_cases hq <;> first | exact prime_2147483647 | norm_num)

set_option maxRecDepth 10000 in
theorem mlsGood29 : MlsGood 29 :=
  lfsr_master_good 29 lfsrData29 (by norm_num) (by norm_num) (by decide!)
    (by intro q hq; fin_cases hq <;> first | exact prime_2147483647 | norm_num)

set_option maxRecDepth 10000 in
theorem mlsGood30 : MlsGood 30 :=
  lfsr_master_good 30 lfsrData30 (by norm_num) (by norm_num) (by decide!)
    (by intro q hq; fin_cases hq <;> first | exact prime_2147483647 | norm_num)

set_option maxRecDepth 10000 in
theorem mlsGood31 : MlsGood 31 :=
  lfsr_master_good 31 lfsrData31 (by norm_num) (by norm_num) (by decide!)
    (by intro q hq; fin_cases hq <;> first | exact prime_2147483647 | norm_num)

theorem mlsGood_all (n : Nat) (hn1 : 1 ≤ n) (hn31 : n ≤ 31) : MlsGood n := by
  interval_cases n
  exacts [mlsGood1, mlsGood2, mlsGood3, mlsGood4, mlsGood5, mlsGood6, mlsGood7,
    mlsGood8, mlsGood9, mlsGood10, mlsGood11, mlsGood12, mlsGood13, mlsGood14,
    mlsGood15, mlsGood16, mlsGood17, mlsGood18, mlsGood19, mlsGood20, mlsGood21,
    mlsGood22, mlsGood23, mlsGood24, mlsGood25, mlsGood26, mlsGood27, mlsGood28,
    mlsGood29, mlsGood30, mlsGood31]

theorem mls_next_iterate (k n s : Nat) :
    Mls.next^[k] ⟨n, s⟩ = ⟨n, (mlsStep n)^[k] s⟩ := by
  induction k generalizing s with
  | zero => rfl
  | succ k ih =>
    rw [Function.iterate_succ_apply, Function.iterate_succ_apply]
    show Mls.next^[k] ⟨n, mlsStep n s⟩ = _
    rw [ih (mlsStep n s)]

/-! ### Claims about `Mls` -/

/-- C1: for every `n` in `[1, 31]` and every nonzero starting state
`s < 2 ^ n`, iterating `Mls::next` visits exactly `2 ^ n - 1` distinct
states during one period, never produces state 0, and first returns to
`s` after `2 ^ n - 1` steps. -/
theorem mls_maximal_period (n s : Nat) (hn1 : 1 ≤ n) (hn31 : n ≤ 31)
    (hs : 0 < s) (hsn : s < 2 ^ n) :
    (Finset.image (fun k => (Mls.next^[k] ⟨n, s⟩).s) (Finset.range (2 ^ n - 1))).card
      = 2 ^ n - 1 ∧
    (∀ k, (Mls.next^[k] ⟨n, s⟩).s ≠ 0) ∧
    (Mls.next^[2 ^ n - 1] ⟨n, s⟩).s = s := by
  obtain ⟨hnz, hper, hdist⟩ := mlsGood_all n hn1 hn31 s hs hsn
  have hbr : ∀ k, (Mls.next^[k] (⟨n, s⟩ : Mls)).s = (mlsStep n)^[k] s := by
    intro k
    rw [mls_next_iterate]
  refine ⟨?_, fun k => by rw [hbr]; exact hnz k, by rw [hbr]; exact hper⟩
  have himg : (fun k => (Mls.next^[k] (⟨n, s⟩ : Mls)).s) =
      fun k => (mlsStep n)^[k] s := funext hbr
  rw [himg]
  rw [Finset.card_image_of_injOn]
  · exact Finset.card_range _
  · intro i hi j hj hij
    rcases Nat.lt_trichotomy i j with h | h | h
    · exact absurd hij (hdist i j h (Finset.mem_range.mp hj))
    · exact h
    · exact absurd hij.symm (hdist j i h (Finset.mem_range.mp hi))

/-- Witness for C1 at `n = 3`, `s = 5`. -/
theorem mls_maximal_period_witness :
    (1 ≤ 3 ∧ 3 ≤ 31 ∧ 0 < 5 ∧ 5 < 2 ^ 3) ∧
    ((Finset.image (fun k => (Mls.next^[k] ⟨3, 5⟩).s) (Finset.range (2 ^ 3 - 1))).card
        = 2 ^ 3 - 1 ∧
      (∀ k, (Mls.next^[k] ⟨3, 5⟩).s ≠ 0) ∧
      (Mls.next^[2 ^ 3 - 1] ⟨3, 5⟩).s = 5) :=
  ⟨by norm_num,
    mls_maximal_period 3 5 (by norm_num) (by norm_num) (by norm_num) (by norm_num)⟩

/-- C5: every `Mls` reachable by `next` steps from `Mls::new` or
`Mls::new_with_seed` (with `1 ≤ n ≤ 31`) has state in `[1, 2 ^ n - 1]`;
in particular `next` never maps a nonzero `n`-bit state to 0. -/
theorem mls_reachable_in_range (n seed k : Nat) (hn1 : 1 ≤ n) (hn31 : n ≤ 31) :
    (∀ m, Mls.new? n = some m →
      1 ≤ (Mls.next^[k] m).s ∧ (Mls.next^[k] m).s ≤ 2 ^ n - 1) ∧
    (∀ m, Mls.new_with_seed? n seed = some m →
      1 ≤ (Mls.next^[k] m).s ∧ (Mls.next^[k] m).s ≤ 2 ^ n - 1) ∧
    (∀ s, 0 < s → s < 2 ^ n → mlsStep n s ≠ 0) := by
  have hgood := mlsGood_all n hn1 hn31
  have h2n : (1 : Nat) <<< n = 2 ^ n := Nat.one_shiftLeft n
  have hNpos : 0 < 2 ^ n - 1 := by
    have h2' : (2 : Nat) ^ 1 ≤ 2 ^ n := Nat.pow_le_pow_right (by omega) hn1
    have h1' : (2 : Nat) ^ 1 = 2 := by norm_num
    omega
  have horbit : ∀ s, 0 < s → s < 2 ^ n →
      1 ≤ (Mls.next^[k] (⟨n, s⟩ : Mls)).s ∧
        (Mls.next^[k] (⟨n, s⟩ : Mls)).s ≤ 2 ^ n - 1 := by
    intro s hs hsn
    obtain ⟨hnz, _, _⟩ := hgood s hs hsn
    rw [mls_next_iterate]
    show 1 ≤ (mlsStep n)^[k] s ∧ (mlsStep n)^[k] s ≤ 2 ^ n - 1
    have hlt : (mlsStep n)^[k] s < 2 ^ n :=
      iterate_lt (fun u _ => mlsStep_lt n u) k s hsn
    have hne := hnz k
    constructor
    · omega
    · omega
  refine ⟨?_, ?_, ?_⟩
  · intro m hm
    unfold Mls.new? at hm
    rw [if_pos ⟨hn1, hn31⟩] at hm
    have hm' : m = ⟨n, (1 <<< n) - 1⟩ := (Option.some_inj.mp hm).symm
    subst hm'
    rw [h2n]
    exact horbit _ (by omega) (by omega)
  · intro m hm
    unfold Mls.new_with_seed? at hm
    rw [if_pos ⟨hn1, hn31⟩] at hm
    have hm' : m = ⟨n, 1 + seed % ((1 <<< n) - 1)⟩ := (Option.some_inj.mp hm).symm
    subst hm'
    rw [h2n]
    have hmod : seed % (2 ^ n - 1) < 2 ^ n - 1 := Nat.mod_lt seed hNpos
    exact horbit _ (by omega) (by omega)
  · intro s hs hsn
    obtain ⟨hnz, _, _⟩ := hgood s hs hsn
    have h1 := hnz 1
    rwa [Function.iterate_one] at h1

/-- Witness for C5 at `n = 4`, `seed = 10`, `k = 5`. -/
theorem mls_reachable_in_range_witness :
    (1 ≤ 4 ∧ 4 ≤ 31) ∧
    ((∀ m, Mls.new? 4 = some m →
        1 ≤ (Mls.next^[5] m).s ∧ (Mls.next^[5] m).s ≤ 2 ^ 4 - 1) ∧
      (∀ m, Mls.new_with_seed? 4 10 = some m →
        1 ≤ (Mls.next^[5] m).s ∧ (Mls.next^[5] m).s ≤ 2 ^ 4 - 1) ∧
      (∀ s, 0 < s → s < 2 ^ 4 → mlsStep 4 s ≠ 0)) :=
  ⟨by norm_num, mls_reachable_in_range 4 10 5 (by norm_num) (by norm_num)⟩

/-- C8: the `Mls` constructors fail (the source asserts) exactly when `n`
lies outside `[1, 31]`; for `n` in range construction succeeds, and
`new_with_seed` yields state `1 + seed % (2 ^ n - 1)`. -/
theorem mls_constructor_spec (n seed : Nat) :
    ((Mls.new? n = none ↔ ¬(1 ≤ n ∧ n ≤ 31)) ∧
      (Mls.new_with_seed? n seed = none ↔ ¬(1 ≤ n ∧ n ≤ 31))) ∧
    (1 ≤ n → n ≤ 31 →
      Mls.new? n = some ⟨n, 2 ^ n - 1⟩ ∧
      Mls.new_with_seed? n seed = some ⟨n, 1 + seed % (2 ^ n - 1)⟩) := by
  have h2n : (1 : Nat) <<< n = 2 ^ n := Nat.one_shiftLeft n
  unfold Mls.new? Mls.new_with_seed?
  by_cases h : 1 ≤ n ∧ n ≤ 31
  · rw [if_pos h, if_pos h]
    refine ⟨⟨by simp [h], by simp [h]⟩, fun _ _ => ⟨by rw [h2n], by rw [h2n]⟩⟩
  · rw [if_neg h, if_neg h]
    exact ⟨⟨by simp [h], by simp [h]⟩, fun h1 h31 => absurd ⟨h1, h31⟩ h⟩

/-- Witness for C8 at `n = 5`, `seed = 100` (and an out-of-range `n = 40`). -/
theorem mls_constructor_spec_witness :
    (((Mls.new? 5 = none ↔ ¬(1 ≤ 5 ∧ 5 ≤ 31)) ∧
        (Mls.new_with_seed? 5 100 = none ↔ ¬(1 ≤ 5 ∧ 5 ≤ 31))) ∧
      (1 ≤ 5 → 5 ≤ 31 →
        Mls.new? 5 = some ⟨5, 2 ^ 5 - 1⟩ ∧
        Mls.new_with_seed? 5 100 = some ⟨5, 1 + 100 % (2 ^ 5 - 1)⟩)) ∧
    Mls.new? 40 = none :=
  ⟨mls_constructor_spec 5 100, by decide⟩

/-! ### Claims about the filters -/

theorem biquad_tick_coefs {F : Type} [LinearOrderedField F] (b : Biquad F)
    (x : F) : ((b.tick x).1).coefs = b.coefs := rfl

/-- Counterexample to C2: a `Biquad` given nonzero coefficients, ticked
and then reset between ticks, is observationally distinguishable from a
freshly constructed instance: the next tick outputs 1 instead of 0.
(The cached hash identifier and the sample-rate binding, which the claim
excepts, play no role: `Biquad` has neither.) -/
theorem biquad_reset_counterexample :
    (((((Biquad.new (F := ℚ)).set_coefs ⟨0, 0, 1, 0, 0⟩).tick 2).1.reset
          none).tick 1).2 = 1 ∧
    ((Biquad.new (F := ℚ)).tick 1).2 = 0 ∧
    ¬(((((Biquad.new (F := ℚ)).set_coefs ⟨0, 0, 1, 0, 0⟩).tick 2).1.reset
          none).tick 1).2 = ((Biquad.new (F := ℚ)).tick 1).2 := by
  refine ⟨?_, ?_, ?_⟩ <;>
    norm_num [Biquad.new, Biquad.set_coefs, Biquad.reset, Biquad.tick]

/-- C2 amended: `reset` restores the recurrence registers to their
freshly constructed values but keeps the derived coefficient caches: a
reset instance equals a fresh instance that has been given the same
retained coefficient/cache state (modulo the hash identifier and the
sample-rate binding, which `reset` handles as the spec states). -/
theorem reset_eq_fresh_modulo_caches {F : Type} [LinearOrderedField F]
    (b : Biquad F) (bl : ButterLowpass F) (op : OnePoleLowpass F)
    (sr : Option F) (sr2 : F) :
    b.reset sr = Biquad.new.set_coefs b.coefs ∧
    bl.reset sr = { ButterLowpass.new bl.sample_rate with
                      biquad := Biquad.new.set_coefs bl.biquad.coefs } ∧
    op.reset none = { OnePoleLowpass.new op.sample_rate with
                        coeff := op.coeff, cutoff := op.cutoff } ∧
    op.reset (some sr2) = { OnePoleLowpass.new sr2 with coeff := op.coeff } := by
  obtain ⟨ba1, ba2, bb0, bb1, bb2, bx1, bx2, by1, by2⟩ := b
  obtain ⟨⟨la1, la2, lb0, lb1, lb2, lx1, lx2, ly1, ly2⟩, lsr, lc⟩ := bl
  obtain ⟨ov, oc, ocut, osr⟩ := op
  exact ⟨rfl, rfl, rfl, rfl⟩

/-- C3 evaluation: `ButterLowpass::reset` leaves the stored sample rate
untouched even when a new one is supplied, so the coefficient
recomputation triggered by the next cutoff change still receives the
construction-time sample rate (44100 below), not the rate passed to
`reset` (48000). -/
theorem butter_reset_keeps_sample_rate :
    (∀ (st : ButterLowpass ℚ) (sr : Option ℚ),
      (st.reset sr).sample_rate = st.sample_rate) ∧
    (ButterLowpass.tick (fun sr c => ⟨sr, c, 0, 0, 0⟩)
        ((ButterLowpass.new (F := ℚ) 44100).reset (some 48000))
        (0, 1000)).1.biquad.coefs = ⟨44100, 1000, 0, 0, 0⟩ ∧
    (44100 : ℚ) ≠ 48000 := by
  refine ⟨fun st sr => rfl, ?_, by norm_num⟩
  norm_num [ButterLowpass.new, ButterLowpass.reset, ButterLowpass.tick,
    Biquad.new, Biquad.reset, Biquad.set_coefs, Biquad.tick, Biquad.coefs]

/-- C4: each derived filter recomputes its coefficients exactly when a
control input differs (by exact equality) from the cached last-used
value: an equal control input leaves coefficients and caches untouched,
a different one recomputes the coefficients from the current sample rate
and stores the new control value in the cache. -/
theorem filter_lazy_recompute {F : Type} [LinearOrderedField F]
    (bc : F → F → BiquadCoefs F) (rc : F → F → F → BiquadCoefs F)
    (oc : F → F → F) (bl : ButterLowpass F) (rs : Resonator F)
    (op : OnePoleLowpass F) (x c ctr bw : F) :
    (c = bl.cutoff →
      (ButterLowpass.tick bc bl (x, c)).1.biquad.coefs = bl.biquad.coefs ∧
      (ButterLowpass.tick bc bl (x, c)).1.cutoff = bl.cutoff) ∧
    (c ≠ bl.cutoff →
      (ButterLowpass.tick bc bl (x, c)).1.biquad.coefs = bc bl.sample_rate c ∧
      (ButterLowpass.tick bc bl (x, c)).1.cutoff = c) ∧
    (ctr = rs.center → bw = rs.bandwidth →
      (Resonator.tick rc rs (x, ctr, bw)).1.biquad.coefs = rs.biquad.coefs ∧
      (Resonator.tick rc rs (x, ctr, bw)).1.center = rs.center ∧
      (Resonator.tick rc rs (x, ctr, bw)).1.bandwidth = rs.bandwidth) ∧
    (ctr ≠ rs.center ∨ bw ≠ rs.bandwidth →
      (Resonator.tick rc rs (x, ctr, bw)).1.biquad.coefs = rc rs.sample_rate ctr bw ∧
      (Resonator.tick rc rs (x, ctr, bw)).1.center = ctr ∧
      (Resonator.tick rc rs (x, ctr, bw)).1.bandwidth = bw) ∧
    (c = op.cutoff →
      (OnePoleLowpass.tick oc op (x, c)).1.coeff = op.coeff ∧
      (OnePoleLowpass.tick oc op (x, c)).1.cutoff = op.cutoff) ∧
    (c ≠ op.cutoff →
      (OnePoleLowpass.tick oc op (x, c)).1.coeff = oc op.sample_rate c ∧
      (OnePoleLowpass.tick oc op (x, c)).1.cutoff = c) := by
  refine ⟨fun h => ?_, fun h => ?_, fun h1 h2 => ?_, fun h => ?_,
    fun h => ?_, fun h => ?_⟩
  · simp [ButterLowpass.tick, h, Biquad.tick, Biquad.coefs]
  · simp [ButterLowpass.tick, h, Biquad.tick, Biquad.coefs, Biquad.set_coefs]
  · simp [Resonator.tick, h1, h2, Biquad.tick, Biquad.coefs]
  · simp only [Resonator.tick]
    rw [if_pos (show (x, ctr, bw).2.1 ≠ rs.center ∨ (x, ctr, bw).2.2 ≠ rs.bandwidth from h)]
    exact ⟨rfl, rfl, rfl⟩
  · simp [OnePoleLowpass.tick, h]
  · simp [OnePoleLowpass.tick, h]

/-- Witness for C4, applying the theorem over `ℚ` in both the
equal-control branch (cutoff 0 on a fresh filter) and the changed-control
branch (cutoff 7, center 7, bandwidth 3). -/
theorem filter_lazy_recompute_witness :
    ((ButterLowpass.tick (fun sr c => (⟨sr, c, 0, 0, 0⟩ : BiquadCoefs ℚ))
        (ButterLowpass.new 10) ((5 : ℚ), 0)).1.biquad.coefs
      = (ButterLowpass.new (F := ℚ) 10).biquad.coefs) ∧
    ((ButterLowpass.tick (fun sr c => (⟨sr, c, 0, 0, 0⟩ : BiquadCoefs ℚ))
        (ButterLowpass.new 10) ((5 : ℚ), 7)).1.biquad.coefs
      = ⟨10, 7, 0, 0, 0⟩) ∧
    ((Resonator.tick (fun sr c b => (⟨sr, c, b, 0, 0⟩ : BiquadCoefs ℚ))
        (Resonator.new 10) ((5 : ℚ), 0, 0)).1.biquad.coefs
      = (Resonator.new (F := ℚ) 10).biquad.coefs) ∧
    ((Resonator.tick (fun sr c b => (⟨sr, c, b, 0, 0⟩ : BiquadCoefs ℚ))
        (Resonator.new 10) ((5 : ℚ), 7, 3)).1.biquad.coefs
      = ⟨10, 7, 3, 0, 0⟩) ∧
    ((OnePoleLowpass.tick (fun sr c => sr + c) (OnePoleLowpass.new 10)
        ((5 : ℚ), 0)).1.coeff = (OnePoleLowpass.new (F := ℚ) 10).coeff) ∧
    ((OnePoleLowpass.tick (fun sr c => sr + c) (OnePoleLowpass.new 10)
        ((5 : ℚ), 7)).1.coeff = 17) := by
  refine ⟨?_, ?_, ?_, ?_, ?_, ?_⟩
  · exact ((filter_lazy_recompute (F := ℚ) (fun sr c => ⟨sr, c, 0, 0, 0⟩)
      (fun sr c b => ⟨sr, c, b, 0, 0⟩) (fun sr c => sr + c)
      (ButterLowpass.new 10) (Resonator.new 10) (OnePoleLowpass.new 10)
      5 0 0 0).1 rfl).1
  · exact ((filter_lazy_recompute (F := ℚ) (fun sr c => ⟨sr, c, 0, 0, 0⟩)
      (fun sr c b => ⟨sr, c, b, 0, 0⟩) (fun sr c => sr + c)
      (ButterLowpass.new 10) (Resonator.new 10) (OnePoleLowpass.new 10)
      5 7 0 0).2.1 (by norm_num [ButterLowpass.new])).1
  · exact ((filter_lazy_recompute (F := ℚ) (fun sr c => ⟨sr, c, 0, 0, 0⟩)
      (fun sr c b => ⟨sr, c, b, 0, 0⟩) (fun sr c => sr + c)
      (ButterLowpass.new 10) (Resonator.new 10) (OnePoleLowpass.new 10)
      5 0 0 0).2.2.1 rfl rfl).1
  · exact ((filter_lazy_recompute (F := ℚ) (fun sr c => ⟨sr, c, 0, 0, 0⟩)
      (fun sr c b => ⟨sr, c, b, 0, 0⟩) (fun sr c => sr + c)
      (ButterLowpass.new 10) (Resonator.new 10) (OnePoleLowpass.new 10)
      5 0 7 3).2.2.2.1 (Or.inl (by norm_num [Resonator.new]))).1
  · exact ((filter_lazy_recompute (F := ℚ) (fun sr c => ⟨sr, c, 0, 0, 0⟩)
      (fun sr c b => ⟨sr, c, b, 0, 0⟩) (fun sr c => sr + c)
      (ButterLowpass.new 10) (Resonator.new 10) (OnePoleLowpass.new 10)
      5 0 0 0).2.2.2.2.1 rfl).1
  · have h := ((filter_lazy_recompute (F := ℚ) (fun sr c => ⟨sr, c, 0, 0, 0⟩)
      (fun sr c b => ⟨sr, c, b, 0, 0⟩) (fun sr c => sr + c)
      (ButterLowpass.new 10) (Resonator.new 10) (OnePoleLowpass.new 10)
      5 7 0 0).2.2.2.2.2 (by norm_num [OnePoleLowpass.new])).1
    rw [h]
    norm_num [OnePoleLowpass.new]

theorem butter_tick_eq_cached {F : Type} [LinearOrderedField F]
    (bc : F → F → BiquadCoefs F) (st : ButterLowpass F) (x c : F)
    (h : c = st.cutoff) :
    ButterLowpass.tick bc st (x, c)
      = ({ st with biquad := (st.biquad.tick x).1 }, (st.biquad.tick x).2) := by
  simp only [ButterLowpass.tick]
  rw [if_neg (show ¬((x, c).2 ≠ st.cutoff) from fun hne => hne h)]

theorem biquad_zero_coefs_tick {F : Type} [LinearOrderedField F]
    (b : Biquad F) (x : F) (h : b.coefs = ⟨0, 0, 0, 0, 0⟩) :
    (b.tick x).2 = 0 ∧ ((b.tick x).1).coefs = ⟨0, 0, 0, 0, 0⟩ := by
  obtain ⟨a1, a2, b0, b1, b2, x1, x2, y1, y2⟩ := b
  simp only [Biquad.coefs, BiquadCoefs.mk.injEq] at h
  obtain ⟨h1, h2, h3, h4, h5⟩ := h
  subst h1; subst h2; subst h3; subst h4; subst h5
  constructor
  · simp [Biquad.tick]
  · rfl

theorem butterRun_zero_cutoff {F : Type} [LinearOrderedField F]
    (bc : F → F → BiquadCoefs F) :
    ∀ (sigs : List F) (st : ButterLowpass F), st.cutoff = 0 →
      st.biquad.coefs = ⟨0, 0, 0, 0, 0⟩ →
      (butterRun bc st (sigs.map (fun x => (x, 0)))).2 = sigs.map (fun _ => 0) ∧
      (butterRun bc st (sigs.map (fun x => (x, 0)))).1.cutoff = 0 ∧
      (butterRun bc st (sigs.map (fun x => (x, 0)))).1.biquad.coefs
        = ⟨0, 0, 0, 0, 0⟩ := by
  intro sigs
  induction sigs with
  | nil => intro st h1 h2; exact ⟨rfl, h1, h2⟩
  | cons x xs ih =>
    intro st h1 h2
    obtain ⟨hout, hcoefs⟩ := biquad_zero_coefs_tick st.biquad x h2
    have ih' := ih { st with biquad := (st.biquad.tick x).1 } h1 hcoefs
    simp only [List.map_cons, butterRun, butter_tick_eq_cached bc st x 0 h1.symm]
    exact ⟨by rw [hout, ih'.1], ih'.2.1, ih'.2.2⟩

/-- C9: a freshly constructed `ButterLowpass` has cached cutoff 0 and an
all-zero coefficient set, and any run of ticks whose cutoff input is
exactly 0 triggers no coefficient recomputation and outputs 0 on every
sample, whatever the signal input. -/
theorem butter_fresh_zero_cutoff {F : Type} [LinearOrderedField F]
    (bc : F → F → BiquadCoefs F) (sr : F) (sigs : List F) :
    (ButterLowpass.new sr).cutoff = 0 ∧
    (ButterLowpass.new sr).biquad.coefs = ⟨0, 0, 0, 0, 0⟩ ∧
    (butterRun bc (ButterLowpass.new sr) (sigs.map (fun x => (x, 0)))).2
      = sigs.map (fun _ => 0) ∧
    (butterRun bc (ButterLowpass.new sr) (sigs.map (fun x => (x, 0)))).1.cutoff
      = 0 ∧
    (butterRun bc (ButterLowpass.new sr) (sigs.map (fun x => (x, 0)))).1.biquad.coefs
      = ⟨0, 0, 0, 0, 0⟩ := by
  obtain ⟨ho, hc, hcf⟩ := butterRun_zero_cutoff bc sigs (ButterLowpass.new sr) rfl rfl
  exact ⟨rfl, rfl, ho, hc, hcf⟩

theorem declickerRun_pass {F : Type} [LinearOrderedField F]
    (delerp : F → F → F → F) (smooth9 : F → F) :
    ∀ (inputs : List F) (d : Declicker F), ¬(d.t < d.duration) →
      declickerRun delerp smooth9 d inputs = (d, inputs) := by
  intro inputs
  induction inputs with
  | nil => intro d _; rfl
  | cons x xs ih =>
    intro d hd
    simp only [declickerRun, Declicker.tick, if_neg hd]
    rw [ih d hd]

/-- C10: a `Declicker` constructed with duration exactly 0 passes every
input through unchanged from the very first tick, both directly after
construction and after a further `reset`: the fade branch is never taken
because `t < duration` is false at `t = 0`. -/
theorem declicker_zero_duration {F : Type} [LinearOrderedField F]
    (delerp : F → F → F → F) (smooth9 : F → F) (sr : F) (inputs : List F) :
    (Declicker.new sr 0).duration = 0 ∧
    declickerRun delerp smooth9 (Declicker.new sr 0) inputs
      = (Declicker.new sr 0, inputs) ∧
    declickerRun delerp smooth9 ((Declicker.new sr 0).reset none) inputs
      = ((Declicker.new sr 0).reset none, inputs) := by
  refine ⟨rfl, ?_, ?_⟩
  · exact declickerRun_pass delerp smooth9 inputs _ (by norm_num [Declicker.new, Declicker.reset])
  · exact declickerRun_pass delerp smooth9 inputs _ (by norm_num [Declicker.new, Declicker.reset])

/-! ### Claims about `NoiseNode` -/

/-- Counterexample to C6: the sample with one-based index 46 produced by
a `NoiseNode` reset with hash identifier 624 equals exactly 1, so not
every sample in the first 10^6 lies in the half-open interval [-1, 1):
the top 20 bits of the LCG state are then all ones and
`1048575 / 524287.5 - 1 = 1` exactly. -/
theorem noise_sample_exactly_one :
    (NoiseNode.tick (NoiseNode.run ((NoiseNode.new.set_hash 624).reset) 45)).2 = 1 ∧
    ¬((NoiseNode.tick (NoiseNode.run ((NoiseNode.new.set_hash 624).reset) 45)).2 < 1) := by
  have hx : (NoiseNode.run ((NoiseNode.new.set_hash 624).reset) 45).x
      = 4422298179592388299 := by decide
  have hv : (NoiseNode.tick (NoiseNode.run ((NoiseNode.new.set_hash 624).reset) 45)).2
      = ((((4422298179592388299 * 6364136223846793005 + 1442695040888963407)
            % 2 ^ 64) >>> 44 : Nat) : ℚ) / (524287.5 : ℚ) - 1 := by
    simp only [NoiseNode.tick, hx]
  have hs : ((4422298179592388299 * 6364136223846793005 + 1442695040888963407)
      % 2 ^ 64) >>> 44 = 1048575 := by decide
  rw [hv, hs]
  norm_num

/-- C6 amended: every `NoiseNode` sample lies in the closed interval
[-1, 1]; the upper endpoint is attained exactly when the top 20 bits of
the advanced LCG state are all ones (see the counterexample), so the
interval cannot be sharpened to the half-open [-1, 1). -/
theorem noise_sample_range (st : NoiseNode) :
    -1 ≤ (NoiseNode.tick st).2 ∧ (NoiseNode.tick st).2 ≤ 1 := by
  simp only [NoiseNode.tick]
  set t := ((st.x * 6364136223846793005 + 1442695040888963407) % 2 ^ 64) >>> 44
    with ht
  have htlt : t ≤ 1048575 := by
    rw [ht, Nat.shiftRight_eq_div_pow]
    have hm : (st.x * 6364136223846793005 + 1442695040888963407) % 2 ^ 64 < 2 ^ 64 :=
      Nat.mod_lt _ (by norm_num)
    have hd : (st.x * 6364136223846793005 + 1442695040888963407) % 2 ^ 64 / 2 ^ 44
        < 2 ^ 20 := by
      apply Nat.div_lt_of_lt_mul
      calc (st.x * 6364136223846793005 + 1442695040888963407) % 2 ^ 64
          < 2 ^ 64 := hm
        _ = 2 ^ 20 * 2 ^ 44 := by norm_num
    omega
  constructor
  · have h1 : (0 : ℚ) ≤ (t : ℚ) / (524287.5 : ℚ) := by
      apply div_nonneg (Nat.cast_nonneg t)
      norm_num
    linarith
  · have h2 : (t : ℚ) ≤ 1048575 := by
      exact_mod_cast htlt
    have h3 : (t : ℚ) / (524287.5 : ℚ) ≤ 2 := by
      rw [div_le_iff (by norm_num : (0 : ℚ) < 524287.5)]
      linarith
    linarith

/-! ### Claims about `SineComponent` -/

theorem sineTicks_state {F : Type} [LinearOrderedField F] (sinF : F → F)
    (tau f : F) :
    ∀ (k : Nat) (s : SineComponent F),
      (sineTicks sinF tau f s k).phase = s.phase + k * (f * s.sample_duration) ∧
      (sineTicks sinF tau f s k).sample_duration = s.sample_duration := by
  intro k
  induction k with
  | zero =>
    intro s
    constructor
    · show s.phase = s.phase + (0 : Nat) * (f * s.sample_duration)
      push_cast
      ring
    · rfl
  | succ k ih =>
    intro s
    have hstep : sineTicks sinF tau f s (k + 1)
        = sineTicks sinF tau f ((SineComponent.tick sinF tau s f).1) k := by
      unfold sineTicks
      rw [Function.iterate_succ_apply]
    rw [hstep]
    obtain ⟨hp, hd⟩ := ih ((SineComponent.tick sinF tau s f).1)
    have hsd : (SineComponent.tick sinF tau s f).1.sample_duration
        = s.sample_duration := rfl
    have hph : (SineComponent.tick sinF tau s f).1.phase
        = s.phase + f * s.sample_duration := rfl
    rw [hp, hd, hsd, hph]
    constructor
    · push_cast
      ring
    · rfl

theorem sineSample_closed {F : Type} [LinearOrderedField F] (sinF : F → F)
    (tau f : F) (s : SineComponent F) (k : Nat) :
    sineSample sinF tau f s k
      = sinF ((s.phase + (k + 1) * (f * s.sample_duration)) * tau) := by
  unfold sineSample
  obtain ⟨hp, hd⟩ := sineTicks_state sinF tau f k s
  show sinF (((sineTicks sinF tau f s k).phase
      + f * (sineTicks sinF tau f s k).sample_duration) * tau) = _
  rw [hp, hd]
  congr 1
  push_cast
  ring

/-- Counterexample to C7: the claim's closed form, read at zero-based
sample index `k`, predicts `sin(2π·f·k/sr + φ0)`, which at `k = 0` is
independent of `f`; but the code advances the phase before producing the
sample, so with `sin` instantiated as the identity, `rnd ≡ 0`, `τ = 1`,
`f = 1`, `sr = 2`, the first output is `1/2` while the claimed formula
gives `0`. -/
theorem sine_formula_counterexample :
    sineSample (F := ℚ) (fun u => u) 1 1
        (SineComponent.reset (fun _ => 0) ((SineComponent.new 1).set_hash 0)
          (some 2)) 0 = 1 / 2 ∧
    ((1 : ℚ) / 2) ≠ (fun u : ℚ => u) (1 * 1 * 0 / 2 + 1 * 0) := by
  constructor
  · rw [sineSample_closed]
    norm_num [SineComponent.new, SineComponent.set_hash, SineComponent.reset]
  · norm_num

/-- C7 amended: for a `SineComponent` reset with hash `h` and sample rate
`sr`, driven at constant frequency `f`, the output at zero-based sample
index `k` is `sin(τ·(φ0 + (k+1)·f/sr))`, where `φ0 = rnd(h)` is the
initial phase derived from the hash by the fixed seeding function — the
phase is advanced before the sample is produced, so index `k` carries
`(k+1)` phase increments (equivalently, the claimed formula holds with
one-based sample indices). -/
theorem sine_closed_form {F : Type} [LinearOrderedField F] (sinF : F → F)
    (rnd : Nat → F) (tau f sr dsr : F) (h : Nat) (k : Nat) :
    sineSample sinF tau f
        (SineComponent.reset rnd ((SineComponent.new dsr).set_hash h) (some sr)) k
      = sinF ((rnd h + (k + 1) * (f * (1 / sr))) * tau) := by
  rw [sineSample_closed]
  rfl
